import Mathlib

/-!
# lpmx command wiring (main.go)

A shallow embedding of `main.go`.  The file wires cobra commands to the
operations of the lpmx library packages (`container`, `utils`, `log`,
`error`).  Library operations are not part of `main.go`; they are taken as
a parameter `Lib σ`, a deterministic transition function on an arbitrary
library state `σ`.  Every library call, log line and printed line is
recorded in a trace, and `LOGGER.Fatal` ends the process with status 1
(logrus calls `os.Exit(1)` after writing the entry).

Of cobra, the model keeps what decides which hooks run: the command tree built
by `AddCommand`, the `Args` rules, and the order `PreRun`, required-flag
check, `Run`.  `main` discards the value of `rootCmd.Execute()`, so every end
other than `LOGGER.Fatal` or a panic is status 0.

Go strings are modelled by `String`, Go `int` by `Int`.
-/

set_option linter.dupNamespace false

namespace Lpmx

/-! ## Data model -/

/-- Modelled from the spec: the error kinds of the lpmx `error` package
(section 7), which `main.go` compares through the field `Err`.  Only
`ErrNExist`, the kind of a missing dependency, is named in `main.go`; every
other kind is `other n`. -/
inductive ErrKind where
  | ErrNExist
  | other (code : Nat)
deriving DecidableEq, Repr

/-- Modelled from the spec: the `*Error` value of the lpmx `error` package,
with its field `Err` and the text returned by its method `Error()`. -/
structure Error where
  Err : ErrKind
  msg : String
deriving DecidableEq, Repr

/-- The method `err.Error()`. -/
def Error.Error (e : Error) : String := e.msg

/-- Values stored in the `map[string]interface{}` handed to `Run`. -/
inductive Value where
  | str (s : String)
  | bool (b : Bool)
deriving DecidableEq, Repr

/-- A Go map with string keys, as an association list without duplicate keys. -/
abbrev ConfigMap := List (String × Value)

/-- The assignment `m[k] = v`. -/
def ConfigMap.set (m : ConfigMap) (k : String) (v : Value) : ConfigMap :=
  if m.any (fun kv => kv.1 == k) then
    m.map (fun kv => if kv.1 == k then (k, v) else kv)
  else m ++ [(k, v)]

/-- The lookup `m[k]`. -/
def ConfigMap.get (m : ConfigMap) (k : String) : Option Value :=
  (m.find? (fun kv => kv.1 == k)).map (fun kv => kv.2)

/-- The keys of the map. -/
def ConfigMap.keys (m : ConfigMap) : List String := m.map (fun kv => kv.1)

/-- Calls that `main.go` makes into the library packages (and `filepath.Abs`),
with their arguments. -/
inductive Call where
  | GetCurrDir
  | WalkandCheckFilePermission (path : String) (names : List String) (mode : Nat) (flag : Bool)
  | CheckCompleteness (path : String) (suffixes : List String)
  | CheckAndStartMemcache
  | FileExist (path : String)
  | filepathAbs (path : String)
  | Init (reset : Bool) (dep : String)
  | List
  | Run (configmap : ConfigMap)
  | Get (id name : String)
  | Set (id type prog value : String)
  | Resume (id : String) (args : List String)
  | Destroy (id : String)
  | Expose (id name : String)
  | RPCExec (ip port timeout cmd : String) (args : List String)
  | RPCQuery (ip port : String)
  | RPCDelete (ip port : String) (pid : Int)
  | DockerDownload (name user pass : String)
  | DockerAdd (file : String)
  | DockerPackage (name user pass : String)
  | DockerCommit (id name tag : String)
  | DockerCreate (name container : String)
  | DockerDelete (name : String)
  | DockerSearch (name : String)
  | DockerList
  | DockerReset (name : String)
  | DockerPush (user pass name tag id : String)
  | Uninstall
deriving DecidableEq, Repr

/-- What a call returns: the error pointer (`none` is `nil`) and the result
values a caller of `main.go` reads, each at its zero value when unused. -/
structure Reply where
  err : Option Error
  str : String
  flag : Bool
  strs : List String
  rpcMap : List (String × String)
deriving DecidableEq, Repr

/-- The library: how a call answers in a library state and how it changes it. -/
abbrev Lib (σ : Type) := Call → σ → Reply × σ

/-- The two errors of `strconv`: `ErrSyntax` and `ErrRange`. -/
inductive NumErr where
  | ErrSyntax
  | ErrRange
deriving DecidableEq, Repr

/-- Levels of the logrus logger used by `main.go`. -/
inductive Level where
  | Info
  | Warn
  | Error
  | Fatal
deriving DecidableEq, Repr

/-- Observable steps of an invocation.  `logNumError` is a log entry whose
text is `(*strconv.NumError).Error()` for the error with the fields `Func`,
`Num` and `Err` given; Go renders that text with `strconv.Quote`, and the
rendering is not modelled: the entry records the error itself. -/
inductive Event where
  | call (c : Call)
  | log (lvl : Level) (fields : List (String × String)) (msg : String)
  | println (line : String)
  | panic (msg : String)
  | logNumError (lvl : Level) (func num : String) (kind : NumErr)
deriving DecidableEq, Repr

/-- Library state together with the trace of what happened so far. -/
structure World (σ : Type) where
  st : σ
  trace : List Event

/-- The handler either returns to cobra or the process has exited. -/
inductive Result (σ α : Type) where
  | ok (a : α) (w : World σ)
  | exit (code : Nat) (w : World σ)

/-- The world a result ends in. -/
def Result.world {σ α : Type} : Result σ α → World σ
  | .ok _ w => w
  | .exit _ w => w

/-- The process status: `main` returns normally (0) unless the process exited
earlier; the value of `rootCmd.Execute()` is discarded by `main`. -/
def Result.status {σ α : Type} : Result σ α → Nat
  | .ok _ _ => 0
  | .exit c _ => c

/-- Code running against the library, with early process exit. -/
def Prog (σ α : Type) := World σ → Result σ α

/-- Return a value without doing anything. -/
def Prog.pure {σ α : Type} (a : α) : Prog σ α := fun w => .ok a w

/-- Sequencing: nothing runs after the process has exited. -/
def Prog.bind {σ α β : Type} (m : Prog σ α) (f : α → Prog σ β) : Prog σ β := fun w =>
  match m w with
  | .ok a w1 => f a w1
  | .exit c w1 => .exit c w1

instance {σ : Type} : Monad (Prog σ) where
  pure := Prog.pure
  bind := Prog.bind

/-- Append one event to the trace. -/
def emit {σ : Type} (e : Event) : Prog σ Unit := fun w =>
  .ok () { st := w.st, trace := w.trace ++ [e] }

/-- The call `os.Exit(code)`. -/
def osExit {σ α : Type} (code : Nat) : Prog σ α := fun w => .exit code w

/-- Call into the library: record the call, take the reply and the new state. -/
def call {σ : Type} (lib : Lib σ) (c : Call) : Prog σ Reply := fun w =>
  .ok (lib c w.st).1 { st := (lib c w.st).2, trace := w.trace ++ [Event.call c] }

/-- The call `LOGGER.Fatal(msg)`: logrus writes the entry and exits with 1. -/
def LOGGER.Fatal {σ : Type} (msg : String) : Prog σ Unit := do
  emit (Event.log Level.Fatal [] msg)
  osExit 1

/-- The call `LOGGER.WithFields(fields).Fatal(msg)`. -/
def LOGGER.WithFields.Fatal {σ : Type} (fields : List (String × String)) (msg : String) :
    Prog σ Unit := do
  emit (Event.log Level.Fatal fields msg)
  osExit 1

/-- The call `LOGGER.Error(msg)`: the entry is written and execution goes on. -/
def LOGGER.Error {σ : Type} (msg : String) : Prog σ Unit :=
  emit (Event.log Level.Error [] msg)

/-- The call `LOGGER.Warn(msg)`. -/
def LOGGER.Warn {σ : Type} (msg : String) : Prog σ Unit :=
  emit (Event.log Level.Warn [] msg)

/-- The call `LOGGER.Info(msg)`. -/
def LOGGER.Info {σ : Type} (msg : String) : Prog σ Unit :=
  emit (Event.log Level.Info [] msg)

/-- The call `LOGGER.WithFields(fields).Info(msg)`. -/
def LOGGER.WithFields.Info {σ : Type} (fields : List (String × String)) (msg : String) :
    Prog σ Unit :=
  emit (Event.log Level.Info fields msg)

/-- The call `fmt.Println(line)`. -/
def fmt.Println {σ : Type} (line : String) : Prog σ Unit :=
  emit (Event.println line)

/-- The index expression `args[i]`: a run-time panic (status 2) when out of range. -/
def argAt {σ : Type} (args : List String) (i : Nat) : Prog σ String :=
  match args[i]? with
  | some a => Prog.pure a
  | none => do
    emit (Event.panic "index out of range")
    osExit 2

/-- The test `strings.Contains(s, substr)`. -/
def strings.containsFrom (sub : List Char) : List Char → Bool
  | [] => sub.isPrefixOf []
  | c :: cs => sub.isPrefixOf (c :: cs) || strings.containsFrom sub cs

/-- The test `strings.Contains(s, substr)` on strings. -/
def strings.Contains (s substr : String) : Bool :=
  strings.containsFrom substr.data s.data

/-! ## strconv.Atoi -/

/-- The digit loop of `strconv.ParseUint(s, 10, 64)`: a byte that is not a
decimal digit is a syntax error, a value above `2^64 - 1` a range error. -/
def strconv.parseUintLoop : List Char → Nat → Except NumErr Nat
  | [], n => .ok n
  | c :: cs, n =>
    if c.isDigit then
      if n * 10 + (c.toNat - 48) > 2 ^ 64 - 1 then .error NumErr.ErrRange
      else strconv.parseUintLoop cs (n * 10 + (c.toNat - 48))
    else .error NumErr.ErrSyntax

/-- The function `strconv.ParseInt(s, 10, 0)` with a 64-bit `int`: an optional
sign, then at least one digit; the value must lie in `[-2^63, 2^63 - 1]`. -/
def strconv.parseInt10 (s : List Char) : Except NumErr Int :=
  match s with
  | [] => .error NumErr.ErrSyntax
  | c :: cs =>
    let neg := c == '-'
    let body := if c == '-' || c == '+' then cs else c :: cs
    if body.isEmpty then .error NumErr.ErrSyntax
    else
      match strconv.parseUintLoop body 0 with
      | .error e => .error e
      | .ok un =>
        if !neg && un ≥ 2 ^ 63 then .error NumErr.ErrRange
        else if neg && un > 2 ^ 63 then .error NumErr.ErrRange
        else .ok (if neg then -(un : Int) else (un : Int))

/-- The error value `*strconv.NumError`. -/
structure NumError where
  Func : String
  Num : String
  Err : NumErr
deriving DecidableEq, Repr

/-- The function `strconv.Atoi`.  Its fast path for short inputs computes the
same result as `ParseInt(s, 10, 0)`, which is what is modelled; a failure is
the `NumError` with `Func` set to `Atoi` and `Num` to the input. -/
def strconv.Atoi (s : String) : Except NumError Int :=
  match strconv.parseInt10 s.data with
  | .ok n => .ok n
  | .error e => .error { Func := "Atoi", Num := s, Err := e }

/-- The call `LOGGER.Fatal(aerr.Error())` for an error of `strconv`: logrus
writes the entry and exits with 1. -/
def LOGGER.FatalNumError {σ : Type} (aerr : NumError) : Prog σ Unit := do
  emit (Event.logNumError Level.Fatal aerr.Func aerr.Num aerr.Err)
  osExit 1

/-! ## Flag variables -/

/-- The flag variables declared in `main`, as cobra has filled them in from the
command line when a handler runs.  Which flags were set on the command line is
kept apart, as the list `given` of `invoke`: a flag that was omitted and a flag
set to its default value leave the same value here. -/
structure Flags where
  InitReset : Bool
  InitDep : String
  RunSource : String
  RunConfig : String
  RunPassive : Bool
  GetId : String
  GetName : String
  RExecIp : String
  RExecPort : String
  RExecTimeout : String
  RQueryIp : String
  RQueryPort : String
  RDeleteIp : String
  RDeletePort : String
  RDeletePid : String
  DockerDownloadUser : String
  DockerDownloadPass : String
  DockerPackageUser : String
  DockerPackagePass : String
  DockerCommitId : String
  DockerCommitName : String
  DockerCommitTag : String
  DockerCreateName : String
  DockerPushUser : String
  DockerPushPass : String
  DockerPushName : String
  DockerPushTag : String
  DockerPushId : String
  ExposeId : String
  ExposeName : String
  SetId : String
  SetType : String
  SetProg : String
  SetVal : String
deriving DecidableEq, Repr

/-- Every flag at its declared default: `false` and the empty string. -/
def Flags.default : Flags :=
  { InitReset := false, InitDep := "", RunSource := "", RunConfig := "", RunPassive := false,
    GetId := "", GetName := "", RExecIp := "", RExecPort := "", RExecTimeout := "",
    RQueryIp := "", RQueryPort := "", RDeleteIp := "", RDeletePort := "", RDeletePid := "",
    DockerDownloadUser := "", DockerDownloadPass := "", DockerPackageUser := "",
    DockerPackagePass := "", DockerCommitId := "", DockerCommitName := "",
    DockerCommitTag := "", DockerCreateName := "", DockerPushUser := "", DockerPushPass := "",
    DockerPushName := "", DockerPushTag := "", DockerPushId := "", ExposeId := "",
    ExposeName := "", SetId := "", SetType := "", SetProg := "", SetVal := "" }

/-- A cobra hook `func(cmd *cobra.Command, args []string)`, reading the flags. -/
abbrev Handler (σ : Type) := Flags → List String → Prog σ Unit

/-! ## checkCompleteness -/

/-- The variable `checklist`. -/
def checklist : List String := ["faked-sysv", "libfakechroot.so", "libfakeroot.so", "libmemcached"]

/-- The constant `VERSION`. -/
def VERSION : String := "alpha-0.3"

/-- The function `checkCompleteness` (mode `0755` is 493). -/
def checkCompleteness {σ : Type} (lib : Lib σ) : Prog σ (Option Error) := do
  let r ← call lib Call.GetCurrDir
  match r.err with
  | some err => pure (some err)
  | none =>
    let dir := r.str
    let r ← call lib (Call.WalkandCheckFilePermission (dir ++ "/.lpmxsys") checklist 0o755 true)
    match r.err with
    | some err => pure (some err)
    | none =>
      let r ← call lib (Call.CheckCompleteness (dir ++ "/.lpmxsys") [".info"])
      match r.err with
      | some err => pure (some err)
      | none => pure none

/-! ## The commands of `main` -/

/-- The hook `initCmd.Run`. -/
def initCmd.Run {σ : Type} (lib : Lib σ) : Handler σ := fun fl _ => do
  let r ← call lib (Call.Init fl.InitReset fl.InitDep)
  match r.err with
  | some err => LOGGER.Fatal err.Error
  | none =>
    let err ← checkCompleteness lib
    match err with
    | some err => LOGGER.Fatal err.Error
    | none => pure ()

/-- The hook `listCmd.PreRun`. -/
def listCmd.PreRun {σ : Type} (lib : Lib σ) : Handler σ := fun _ _ => do
  let err ← checkCompleteness lib
  match err with
  | some err => LOGGER.Fatal err.Error
  | none => pure ()

/-- The hook `listCmd.Run`. -/
def listCmd.Run {σ : Type} (lib : Lib σ) : Handler σ := fun _ _ => do
  let r ← call lib (Call.List)
  match r.err with
  | some err => LOGGER.Fatal err.Error
  | none => pure ()

/-- The hook `runCmd.PreRun`. -/
def runCmd.PreRun {σ : Type} (lib : Lib σ) : Handler σ := fun _ _ => do
  let err ← checkCompleteness lib
  match err with
  | some err => LOGGER.Fatal err.Error
  | none =>
    let r ← call lib Call.CheckAndStartMemcache
    match r.err with
    | some err =>
      if err.Err ≠ ErrKind.ErrNExist then LOGGER.Fatal err.Error
      else LOGGER.Warn "memcached related components are missing, functions may not work properly"
    | none => pure ()

/-- The end of `runCmd.Run`: build the map and call `Run`. -/
def runCmd.callRun {σ : Type} (lib : Lib σ) (RunSource RunConfig : String) (RunPassive : Bool) :
    Prog σ Unit := do
  let configmap : ConfigMap := []
  let configmap := configmap.set "dir" (Value.str RunSource)
  let configmap := configmap.set "config" (Value.str RunConfig)
  let configmap := configmap.set "passive" (Value.bool RunPassive)
  let r ← call lib (Call.Run configmap)
  match r.err with
  | some err => LOGGER.Fatal err.Error
  | none => pure ()

/-- The hook `runCmd.Run`; the errors of `filepath.Abs` are discarded. -/
def runCmd.Run {σ : Type} (lib : Lib σ) : Handler σ := fun fl _ => do
  let r ← call lib (Call.filepathAbs fl.RunSource)
  let RunSource := r.str
  if fl.RunConfig ≠ "" then do
    let r ← call lib (Call.filepathAbs fl.RunConfig)
    let RunConfig := r.str
    runCmd.callRun lib RunSource RunConfig fl.RunPassive
  else do
    let config_path := RunSource ++ "/setting.yml"
    let r ← call lib (Call.FileExist config_path)
    if r.flag then
      let RunConfig := config_path
      runCmd.callRun lib RunSource RunConfig fl.RunPassive
    else
      LOGGER.Fatal "can\x27t locate the setting.yml in source folder"

/-- The hook `getCmd.PreRun`. -/
def getCmd.PreRun {σ : Type} (lib : Lib σ) : Handler σ := fun _ _ => do
  let err ← checkCompleteness lib
  match err with
  | some err => LOGGER.Fatal err.Error
  | none =>
    let r ← call lib Call.CheckAndStartMemcache
    match r.err with
    | some err => LOGGER.Fatal err.Error
    | none => pure ()

/-- The hook `getCmd.Run`. -/
def getCmd.Run {σ : Type} (lib : Lib σ) : Handler σ := fun fl _ => do
  let r ← call lib (Call.Get fl.GetId fl.GetName)
  match r.err with
  | some err => LOGGER.Fatal err.Error
  | none => pure ()

/-- The hook `rpcExecCmd.PreRun`. -/
def rpcExecCmd.PreRun {σ : Type} (lib : Lib σ) : Handler σ := fun _ _ => do
  let err ← checkCompleteness lib
  match err with
  | some err => LOGGER.Fatal err.Error
  | none =>
    let r ← call lib Call.CheckAndStartMemcache
    match r.err with
    | some err =>
      if err.Err ≠ ErrKind.ErrNExist then LOGGER.Fatal err.Error
      else LOGGER.Warn "memcached related components are missing, functions may not work properly"
    | none => pure ()

/-- The hook `rpcExecCmd.Run`. -/
def rpcExecCmd.Run {σ : Type} (lib : Lib σ) : Handler σ := fun fl args => do
  let cmd0 ← argAt args 0
  let r ← call lib (Call.RPCExec fl.RExecIp fl.RExecPort fl.RExecTimeout cmd0 (args.drop 1))
  match r.err with
  | some err => LOGGER.Fatal err.Error
  | none => LOGGER.Info "DONE"

/-- The hook `rpcQueryCmd.PreRun`. -/
def rpcQueryCmd.PreRun {σ : Type} (lib : Lib σ) : Handler σ := fun _ _ => do
  let err ← checkCompleteness lib
  match err with
  | some err => LOGGER.Fatal err.Error
  | none => pure ()

/-- The loop `for k, v := range res.RPCMap`, in the order the reply lists
the entries. -/
def printRPCMap {σ : Type} : List (String × String) → Prog σ Unit
  | [] => pure ()
  | (k, v) :: rest => do
    fmt.Println (k ++ " " ++ v)
    printRPCMap rest

/-- The hook `rpcQueryCmd.Run`. -/
def rpcQueryCmd.Run {σ : Type} (lib : Lib σ) : Handler σ := fun fl _ => do
  let r ← call lib (Call.RPCQuery fl.RQueryIp fl.RQueryPort)
  match r.err with
  | some err => LOGGER.Fatal err.Error
  | none => do
    fmt.Println "PID CMD"
    printRPCMap r.rpcMap

/-- The hook `rpcDeleteCmd.PreRun`. -/
def rpcDeleteCmd.PreRun {σ : Type} (lib : Lib σ) : Handler σ := fun _ _ => do
  let err ← checkCompleteness lib
  match err with
  | some err => LOGGER.Fatal err.Error
  | none => pure ()

/-- The hook `rpcDeleteCmd.Run`. -/
def rpcDeleteCmd.Run {σ : Type} (lib : Lib σ) : Handler σ := fun fl _ => do
  match strconv.Atoi fl.RDeletePid with
  | .error aerr => LOGGER.FatalNumError aerr
  | .ok i =>
    let r ← call lib (Call.RPCDelete fl.RDeleteIp fl.RDeletePort i)
    match r.err with
    | some err => LOGGER.Fatal err.Error
    | none => LOGGER.Info "DONE"

/-- The hook `dockerDownloadCmd.PreRun`. -/
def dockerDownloadCmd.PreRun {σ : Type} (lib : Lib σ) : Handler σ := fun _ _ => do
  let err ← checkCompleteness lib
  match err with
  | some err => LOGGER.Fatal err.Error
  | none => pure ()

/-- The hook `dockerDownloadCmd.Run`. -/
def dockerDownloadCmd.Run {σ : Type} (lib : Lib σ) : Handler σ := fun fl args => do
  let a0 ← argAt args 0
  let r ← call lib (Call.DockerDownload a0 fl.DockerDownloadUser fl.DockerDownloadPass)
  match r.err with
  | some err => LOGGER.Fatal err.Error
  | none => LOGGER.Info "DONE"

/-- The hook `dockerAddCmd.PreRun`. -/
def dockerAddCmd.PreRun {σ : Type} (lib : Lib σ) : Handler σ := fun _ _ => do
  let err ← checkCompleteness lib
  match err with
  | some err => LOGGER.Fatal err.Error
  | none => pure ()

/-- The hook `dockerAddCmd.Run`. -/
def dockerAddCmd.Run {σ : Type} (lib : Lib σ) : Handler σ := fun _ args => do
  let a0 ← argAt args 0
  let r ← call lib (Call.DockerAdd a0)
  match r.err with
  | some err => LOGGER.Fatal err.Error
  | none => LOGGER.Info "DONE"

/-- The hook `dockerPackageCmd.PreRun`. -/
def dockerPackageCmd.PreRun {σ : Type} (lib : Lib σ) : Handler σ := fun _ _ => do
  let err ← checkCompleteness lib
  match err with
  | some err => LOGGER.Fatal err.Error
  | none => pure ()

/-- The hook `dockerPackageCmd.Run`. -/
def dockerPackageCmd.Run {σ : Type} (lib : Lib σ) : Handler σ := fun fl args => do
  let a0 ← argAt args 0
  let r ← call lib (Call.DockerPackage a0 fl.DockerPackageUser fl.DockerPackagePass)
  match r.err with
  | some err => LOGGER.Fatal err.Error
  | none => LOGGER.Info (a0 ++ ".tar.gz locates inside \x27package\x27 folder")

/-- The hook `dockerCommitCmd.PreRun`. -/
def dockerCommitCmd.PreRun {σ : Type} (lib : Lib σ) : Handler σ := fun _ _ => do
  let err ← checkCompleteness lib
  match err with
  | some err => LOGGER.Fatal err.Error
  | none => pure ()

/-- The hook `dockerCommitCmd.Run`. -/
def dockerCommitCmd.Run {σ : Type} (lib : Lib σ) : Handler σ := fun fl _ => do
  let r ← call lib (Call.DockerCommit fl.DockerCommitId fl.DockerCommitName fl.DockerCommitTag)
  match r.err with
  | some err => LOGGER.Fatal err.Error
  | none => LOGGER.Info "DONE"

/-- The hook `dockerCreateCmd.PreRun`. -/
def dockerCreateCmd.PreRun {σ : Type} (lib : Lib σ) : Handler σ := fun _ _ => do
  let err ← checkCompleteness lib
  match err with
  | some err => LOGGER.Fatal err.Error
  | none =>
    let r ← call lib Call.CheckAndStartMemcache
    match r.err with
    | some err =>
      if err.Err ≠ ErrKind.ErrNExist then LOGGER.Fatal err.Error
      else LOGGER.Warn "memcached related components are missing, functions may not work properly"
    | none => pure ()

/-- The hook `dockerCreateCmd.Run`. -/
def dockerCreateCmd.Run {σ : Type} (lib : Lib σ) : Handler σ := fun fl args => do
  let a0 ← argAt args 0
  let r ← call lib (Call.DockerCreate a0 fl.DockerCreateName)
  match r.err with
  | some err => LOGGER.Fatal err.Error
  | none => pure ()

/-- The hook `dockerDeleteCmd.PreRun`. -/
def dockerDeleteCmd.PreRun {σ : Type} (lib : Lib σ) : Handler σ := fun _ _ => do
  let err ← checkCompleteness lib
  match err with
  | some err => LOGGER.Fatal err.Error
  | none => pure ()

/-- The hook `dockerDeleteCmd.Run`. -/
def dockerDeleteCmd.Run {σ : Type} (lib : Lib σ) : Handler σ := fun _ args => do
  let a0 ← argAt args 0
  let r ← call lib (Call.DockerDelete a0)
  match r.err with
  | some err => LOGGER.Fatal err.Error
  | none => LOGGER.Info "DONE"

/-- The hook `dockerSearchCmd.PreRun`. -/
def dockerSearchCmd.PreRun {σ : Type} (lib : Lib σ) : Handler σ := fun _ _ => do
  let err ← checkCompleteness lib
  match err with
  | some err => LOGGER.Fatal err.Error
  | none => pure ()

/-- The rendering of a string slice by the verb `%s`: `[a b c]`. -/
def fmt.sliceText (tags : List String) : String := "[" ++ " ".intercalate tags ++ "]"

/-- The hook `dockerSearchCmd.Run`. -/
def dockerSearchCmd.Run {σ : Type} (lib : Lib σ) : Handler σ := fun _ args => do
  let a0 ← argAt args 0
  let r ← call lib (Call.DockerSearch a0)
  match r.err with
  | some err => LOGGER.Error err.Error
  | none => fmt.Println ("Name: " ++ a0 ++ ", Available Tags: " ++ fmt.sliceText r.strs)

/-- The hook `dockerListCmd.PreRun`. -/
def dockerListCmd.PreRun {σ : Type} (lib : Lib σ) : Handler σ := fun _ _ => do
  let err ← checkCompleteness lib
  match err with
  | some err => LOGGER.Fatal err.Error
  | none => pure ()

/-- The hook `dockerListCmd.Run`. -/
def dockerListCmd.Run {σ : Type} (lib : Lib σ) : Handler σ := fun _ _ => do
  let r ← call lib (Call.DockerList)
  match r.err with
  | some err => LOGGER.Error err.Error
  | none => pure ()

/-- The hook `dockerResetCmd.PreRun`. -/
def dockerResetCmd.PreRun {σ : Type} (lib : Lib σ) : Handler σ := fun _ _ => do
  let err ← checkCompleteness lib
  match err with
  | some err => LOGGER.Fatal err.Error
  | none => pure ()

/-- The hook `dockerResetCmd.Run`. -/
def dockerResetCmd.Run {σ : Type} (lib : Lib σ) : Handler σ := fun _ args => do
  let a0 ← argAt args 0
  let r ← call lib (Call.DockerReset a0)
  match r.err with
  | some err => LOGGER.Error err.Error
  | none => LOGGER.Info "DONE"

/-- The hook `dockerPushCmd.PreRun`. -/
def dockerPushCmd.PreRun {σ : Type} (lib : Lib σ) : Handler σ := fun _ _ => do
  let err ← checkCompleteness lib
  match err with
  | some err => LOGGER.Fatal err.Error
  | none => pure ()

/-- The hook `dockerPushCmd.Run`. -/
def dockerPushCmd.Run {σ : Type} (lib : Lib σ) : Handler σ := fun fl _ => do
  let r ← call lib (Call.DockerPush fl.DockerPushUser fl.DockerPushPass fl.DockerPushName fl.DockerPushPass fl.DockerPushId)
  match r.err with
  | some err => LOGGER.Error err.Error
  | none => LOGGER.Info "DONE"

/-- The hook `exposeCmd.PreRun`. -/
def exposeCmd.PreRun {σ : Type} (lib : Lib σ) : Handler σ := fun _ _ => do
  let err ← checkCompleteness lib
  match err with
  | some err => LOGGER.Fatal err.Error
  | none => pure ()

/-- The hook `exposeCmd.Run`. -/
def exposeCmd.Run {σ : Type} (lib : Lib σ) : Handler σ := fun fl _ => do
  let r ← call lib (Call.Expose fl.ExposeId fl.ExposeName)
  match r.err with
  | some err => LOGGER.Fatal err.Error
  | none => LOGGER.Info "DONE"

/-- The hook `resumeCmd.PreRun`. -/
def resumeCmd.PreRun {σ : Type} (lib : Lib σ) : Handler σ := fun _ _ => do
  let err ← checkCompleteness lib
  match err with
  | some err => LOGGER.Fatal err.Error
  | none =>
    let r ← call lib Call.CheckAndStartMemcache
    match r.err with
    | some err =>
      if err.Err ≠ ErrKind.ErrNExist then LOGGER.Fatal err.Error
      else LOGGER.Warn "memcached related components are missing, functions may not work properly"
    | none => pure ()

/-- The hook `resumeCmd.Run`. -/
def resumeCmd.Run {σ : Type} (lib : Lib σ) : Handler σ := fun _ args => do
  let a0 ← argAt args 0
  let r ← call lib (Call.Resume a0 (args.drop 1))
  match r.err with
  | some err => LOGGER.Fatal err.Error
  | none => pure ()

/-- The hook `destroyCmd.PreRun`. -/
def destroyCmd.PreRun {σ : Type} (lib : Lib σ) : Handler σ := fun _ _ => do
  let err ← checkCompleteness lib
  match err with
  | some err => LOGGER.Fatal err.Error
  | none => pure ()

/-- The hook `destroyCmd.Run`. -/
def destroyCmd.Run {σ : Type} (lib : Lib σ) : Handler σ := fun _ args => do
  let a0 ← argAt args 0
  let r ← call lib (Call.Destroy a0)
  match r.err with
  | some err => LOGGER.Fatal err.Error
  | none => LOGGER.WithFields.Info [("container id", a0)] "container is destroyed"

/-- The hook `setCmd.PreRun`. -/
def setCmd.PreRun {σ : Type} (lib : Lib σ) : Handler σ := fun _ _ => do
  let err ← checkCompleteness lib
  match err with
  | some err => LOGGER.Fatal err.Error
  | none =>
    let r ← call lib Call.CheckAndStartMemcache
    match r.err with
    | some err => LOGGER.Fatal err.Error
    | none => pure ()

/-- The hook `setCmd.Run`. -/
def setCmd.Run {σ : Type} (lib : Lib σ) : Handler σ := fun fl _ => do
  if !strings.Contains fl.SetVal ":" then
    LOGGER.WithFields.Fatal [("value", fl.SetVal)]
      "the program value you input does not have \x27:\x27, the format should be \x27file1:replace_file1;file2:replace_file2\x27"
  else
    let r ← call lib (Call.Set fl.SetId fl.SetType fl.SetProg fl.SetVal)
    match r.err with
    | some err => LOGGER.Fatal err.Error
    | none =>
      LOGGER.WithFields.Info [("container id", fl.SetId)]
        "container is set with new environment variables"

/-- The hook `uninstallCmd.Run`. -/
def uninstallCmd.Run {σ : Type} (lib : Lib σ) : Handler σ := fun _ _ => do
  let r ← call lib (Call.Uninstall)
  match r.err with
  | some err => LOGGER.Error err.Error
  | none => pure ()

/-- The hook `versionCmd.Run`. -/
def versionCmd.Run {σ : Type} : Handler σ := fun _ _ =>
  LOGGER.Info ("LPMX Version: " ++ VERSION)

/-! ## The command tree -/

/-- The `cobra.Command` values declared in `main`, by variable name. -/
inductive Cmd where
  | initCmd
  | listCmd
  | runCmd
  | getCmd
  | rpcExecCmd
  | rpcQueryCmd
  | rpcDeleteCmd
  | rpcCmd
  | dockerDownloadCmd
  | dockerAddCmd
  | dockerPackageCmd
  | dockerCommitCmd
  | dockerCreateCmd
  | dockerDeleteCmd
  | dockerSearchCmd
  | dockerListCmd
  | dockerResetCmd
  | dockerPushCmd
  | dockerCmd
  | exposeCmd
  | resumeCmd
  | destroyCmd
  | setCmd
  | uninstallCmd
  | versionCmd
  | rootCmd
deriving DecidableEq, Repr, Fintype

/-- The field `Use` of each command. -/
def Cmd.Use : Cmd → String
  | .initCmd => "init"
  | .listCmd => "list"
  | .runCmd => "run"
  | .getCmd => "get"
  | .rpcExecCmd => "exec"
  | .rpcQueryCmd => "query"
  | .rpcDeleteCmd => "kill"
  | .rpcCmd => "rpc"
  | .dockerDownloadCmd => "download"
  | .dockerAddCmd => "add"
  | .dockerPackageCmd => "package"
  | .dockerCommitCmd => "commit"
  | .dockerCreateCmd => "create"
  | .dockerDeleteCmd => "delete"
  | .dockerSearchCmd => "search"
  | .dockerListCmd => "list"
  | .dockerResetCmd => "reset"
  | .dockerPushCmd => "push"
  | .dockerCmd => "docker"
  | .exposeCmd => "expose"
  | .resumeCmd => "resume"
  | .destroyCmd => "destroy"
  | .setCmd => "set"
  | .uninstallCmd => "uninstall"
  | .versionCmd => "version"
  | .rootCmd => "lpmx"

/-- The positional-argument rules used in `main`; `unset` is a command without
the field `Args`. -/
inductive ArgsRule where
  | ExactArgs (n : Nat)
  | MinimumNArgs (n : Nat)
  | unset
deriving DecidableEq, Repr

/-- Whether cobra lets the positional arguments through to the hooks of a
command that has hooks. -/
def ArgsRule.accepts : ArgsRule → List String → Bool
  | .ExactArgs n, args => args.length == n
  | .MinimumNArgs n, args => n ≤ args.length
  | .unset, _ => true

/-- The field `Args` of each command. -/
def Cmd.Args : Cmd → ArgsRule
  | .initCmd => .ExactArgs 0
  | .listCmd => .ExactArgs 0
  | .runCmd => .ExactArgs 0
  | .getCmd => .ExactArgs 0
  | .rpcExecCmd => .MinimumNArgs 1
  | .rpcQueryCmd => .ExactArgs 0
  | .rpcDeleteCmd => .ExactArgs 0
  | .rpcCmd => .unset
  | .dockerDownloadCmd => .ExactArgs 1
  | .dockerAddCmd => .ExactArgs 1
  | .dockerPackageCmd => .ExactArgs 1
  | .dockerCommitCmd => .ExactArgs 0
  | .dockerCreateCmd => .ExactArgs 1
  | .dockerDeleteCmd => .ExactArgs 1
  | .dockerSearchCmd => .ExactArgs 1
  | .dockerListCmd => .ExactArgs 0
  | .dockerResetCmd => .ExactArgs 1
  | .dockerPushCmd => .ExactArgs 0
  | .dockerCmd => .unset
  | .exposeCmd => .ExactArgs 0
  | .resumeCmd => .MinimumNArgs 1
  | .destroyCmd => .ExactArgs 1
  | .setCmd => .ExactArgs 0
  | .uninstallCmd => .ExactArgs 0
  | .versionCmd => .ExactArgs 0
  | .rootCmd => .unset

/-- The field `PreRun` of each command, when set. -/
def Cmd.PreRun {σ : Type} (lib : Lib σ) : Cmd → Option (Handler σ)
  | .initCmd => none
  | .listCmd => some (listCmd.PreRun lib)
  | .runCmd => some (runCmd.PreRun lib)
  | .getCmd => some (getCmd.PreRun lib)
  | .rpcExecCmd => some (rpcExecCmd.PreRun lib)
  | .rpcQueryCmd => some (rpcQueryCmd.PreRun lib)
  | .rpcDeleteCmd => some (rpcDeleteCmd.PreRun lib)
  | .rpcCmd => none
  | .dockerDownloadCmd => some (dockerDownloadCmd.PreRun lib)
  | .dockerAddCmd => some (dockerAddCmd.PreRun lib)
  | .dockerPackageCmd => some (dockerPackageCmd.PreRun lib)
  | .dockerCommitCmd => some (dockerCommitCmd.PreRun lib)
  | .dockerCreateCmd => some (dockerCreateCmd.PreRun lib)
  | .dockerDeleteCmd => some (dockerDeleteCmd.PreRun lib)
  | .dockerSearchCmd => some (dockerSearchCmd.PreRun lib)
  | .dockerListCmd => some (dockerListCmd.PreRun lib)
  | .dockerResetCmd => some (dockerResetCmd.PreRun lib)
  | .dockerPushCmd => some (dockerPushCmd.PreRun lib)
  | .dockerCmd => none
  | .exposeCmd => some (exposeCmd.PreRun lib)
  | .resumeCmd => some (resumeCmd.PreRun lib)
  | .destroyCmd => some (destroyCmd.PreRun lib)
  | .setCmd => some (setCmd.PreRun lib)
  | .uninstallCmd => none
  | .versionCmd => none
  | .rootCmd => none

/-- The field `Run` of each command, when set. -/
def Cmd.Run {σ : Type} (lib : Lib σ) : Cmd → Option (Handler σ)
  | .initCmd => some (initCmd.Run lib)
  | .listCmd => some (listCmd.Run lib)
  | .runCmd => some (runCmd.Run lib)
  | .getCmd => some (getCmd.Run lib)
  | .rpcExecCmd => some (rpcExecCmd.Run lib)
  | .rpcQueryCmd => some (rpcQueryCmd.Run lib)
  | .rpcDeleteCmd => some (rpcDeleteCmd.Run lib)
  | .rpcCmd => none
  | .dockerDownloadCmd => some (dockerDownloadCmd.Run lib)
  | .dockerAddCmd => some (dockerAddCmd.Run lib)
  | .dockerPackageCmd => some (dockerPackageCmd.Run lib)
  | .dockerCommitCmd => some (dockerCommitCmd.Run lib)
  | .dockerCreateCmd => some (dockerCreateCmd.Run lib)
  | .dockerDeleteCmd => some (dockerDeleteCmd.Run lib)
  | .dockerSearchCmd => some (dockerSearchCmd.Run lib)
  | .dockerListCmd => some (dockerListCmd.Run lib)
  | .dockerResetCmd => some (dockerResetCmd.Run lib)
  | .dockerPushCmd => some (dockerPushCmd.Run lib)
  | .dockerCmd => none
  | .exposeCmd => some (exposeCmd.Run lib)
  | .resumeCmd => some (resumeCmd.Run lib)
  | .destroyCmd => some (destroyCmd.Run lib)
  | .setCmd => some (setCmd.Run lib)
  | .uninstallCmd => some (uninstallCmd.Run lib)
  | .versionCmd => some versionCmd.Run
  | .rootCmd => none

/-- The children each command receives through `AddCommand`, in the order of
the calls in `main`. -/
def Cmd.commands : Cmd → List Cmd
  | .rpcCmd => [.rpcExecCmd, .rpcQueryCmd, .rpcDeleteCmd]
  | .dockerCmd => [.dockerCreateCmd, .dockerSearchCmd, .dockerListCmd, .dockerDeleteCmd,
      .dockerDownloadCmd, .dockerResetCmd, .dockerPackageCmd, .dockerAddCmd, .dockerCommitCmd]
  | .rootCmd => [.initCmd, .destroyCmd, .listCmd, .setCmd, .resumeCmd, .getCmd, .dockerCmd,
      .exposeCmd, .uninstallCmd, .versionCmd]
  | _ => []

/-- The lookup of cobra for the next word: the child whose name is the word. -/
def Cmd.findNext (c : Cmd) (next : String) : Option Cmd :=
  c.commands.find? (fun d => d.Use == next)

/-- The traversal `Find` of cobra on the words of the command line (flags
removed): descend while the next word names a child, and return the command
reached with the words left over. -/
def Cmd.Find : Cmd → List String → Cmd × List String
  | c, [] => (c, [])
  | c, next :: rest =>
    match c.findNext next with
    | some d => Cmd.Find d rest
    | none => (c, next :: rest)

/-- The flags each command marks with `MarkFlagRequired`, by long name. -/
def Cmd.requiredFlags : Cmd → List String
  | .runCmd => ["source"]
  | .getCmd => ["id", "name"]
  | .rpcExecCmd => ["ip", "port"]
  | .rpcQueryCmd => ["ip", "port"]
  | .rpcDeleteCmd => ["ip", "port", "pid"]
  | .dockerCommitCmd => ["id", "name", "tag"]
  | .dockerPushCmd => ["name", "tag", "id"]
  | .exposeCmd => ["id", "name"]
  | .setCmd => ["id", "type", "name", "value"]
  | _ => []

/-- The check `validateRequiredFlags` of cobra: every required flag of the
command is among the flags set on the command line (`given`, by long name; a
flag set to the empty string is set). -/
def Cmd.requiredGiven (c : Cmd) (given : List String) : Bool :=
  c.requiredFlags.all (fun f => given.contains f)

/-- What cobra does between `PreRun` and `Run`: when a required flag was not
set it returns an error instead of calling `Run`; `main` discards the value of
`rootCmd.Execute()`, so the process then ends with status 0. -/
def runIfRequiredGiven {σ : Type} (c : Cmd) (given : List String) (run : Prog σ Unit) :
    Prog σ Unit :=
  if c.requiredGiven given then run else pure ()

/-- What cobra runs for a command it has selected with valid positional
arguments: nothing but the help text when the command has no `Run`, else
`PreRun`, then the required-flag check, then `Run`.  `fl` holds the flag
variables and `given` the long names of the flags set on the command line. -/
def invoke {σ : Type} (lib : Lib σ) (c : Cmd) (fl : Flags) (given : List String)
    (args : List String) : Prog σ Unit :=
  match c.Run lib with
  | none => pure ()
  | some run =>
    match c.PreRun lib with
    | none => runIfRequiredGiven c given (run fl args)
    | some preRun => do
      preRun fl args
      runIfRequiredGiven c given (run fl args)

/-- The call `rootCmd.Execute()` on the words of the command line, with the
flags already bound: select the command, check its positional arguments, and
run its hooks.  The messages cobra itself prints are not recorded. -/
def Execute {σ : Type} (lib : Lib σ) (fl : Flags) (given : List String) (words : List String) :
    Prog σ Unit :=
  let found := Cmd.Find Cmd.rootCmd words
  if found.1.Args.accepts found.2 then invoke lib found.1 fl given found.2
  else pure ()

/-! ## Vocabulary for the statements -/

/-- The three calls made by `checkCompleteness`. -/
def Call.isCheck : Call → Bool
  | .GetCurrDir => true
  | .WalkandCheckFilePermission _ _ _ _ => true
  | .CheckCompleteness _ _ => true
  | _ => false

/-- The library operations the commands exist for (`Init` ... `Uninstall`), as
opposed to the checks and path helpers. -/
def Call.isOperation : Call → Bool
  | .GetCurrDir => false
  | .WalkandCheckFilePermission _ _ _ _ => false
  | .CheckCompleteness _ _ => false
  | .CheckAndStartMemcache => false
  | .FileExist _ => false
  | .filepathAbs _ => false
  | _ => true

/-- A call of the library operation `Set`. -/
def Call.isSet : Call → Bool
  | .Set _ _ _ _ => true
  | _ => false

/-- A call of the library operation `Get`. -/
def Call.isGet : Call → Bool
  | .Get _ _ => true
  | _ => false

/-- An event that is a call satisfying `p`. -/
def Event.isCall (p : Call → Bool) : Event → Bool
  | .call c => p c
  | _ => false

/-- The events a run added to the trace of the world it started in. -/
def newEvents {σ α : Type} (w : World σ) (res : Result σ α) : List Event :=
  res.world.trace.drop w.trace.length

/-- The library state reached from `s` by the calls of a trace, in order. -/
def replay {σ : Type} (lib : Lib σ) : List Event → σ → σ
  | [], s => s
  | .call c :: rest, s => replay lib rest (lib c s).2
  | _ :: rest, s => replay lib rest s

/-- The command whose `Run` hook makes the call, for the library operations. -/
def Call.owner : Call → Option Cmd
  | .GetCurrDir => none
  | .WalkandCheckFilePermission _ _ _ _ => none
  | .CheckCompleteness _ _ => none
  | .CheckAndStartMemcache => none
  | .FileExist _ => none
  | .filepathAbs _ => none
  | .Init _ _ => some .initCmd
  | .List => some .listCmd
  | .Run _ => some .runCmd
  | .Get _ _ => some .getCmd
  | .Set _ _ _ _ => some .setCmd
  | .Resume _ _ => some .resumeCmd
  | .Destroy _ => some .destroyCmd
  | .Expose _ _ => some .exposeCmd
  | .RPCExec _ _ _ _ _ => some .rpcExecCmd
  | .RPCQuery _ _ => some .rpcQueryCmd
  | .RPCDelete _ _ _ => some .rpcDeleteCmd
  | .DockerDownload _ _ _ => some .dockerDownloadCmd
  | .DockerAdd _ => some .dockerAddCmd
  | .DockerPackage _ _ _ => some .dockerPackageCmd
  | .DockerCommit _ _ _ => some .dockerCommitCmd
  | .DockerCreate _ _ => some .dockerCreateCmd
  | .DockerDelete _ => some .dockerDeleteCmd
  | .DockerSearch _ => some .dockerSearchCmd
  | .DockerList => some .dockerListCmd
  | .DockerReset _ => some .dockerResetCmd
  | .DockerPush _ _ _ _ _ => some .dockerPushCmd
  | .Uninstall => some .uninstallCmd

/-- The library operation each command exists for, as a test on calls. -/
def Cmd.ownOperation (c : Cmd) (call : Call) : Bool := call.owner == some c

/-- The commands with hooks other than init, uninstall and version: list, run,
get, set, resume, destroy, expose, the three rpc subcommands and the ten docker
subcommands. -/
def checkedCmds : List Cmd :=
  [.listCmd, .runCmd, .getCmd, .setCmd, .resumeCmd, .destroyCmd, .exposeCmd,
   .rpcExecCmd, .rpcQueryCmd, .rpcDeleteCmd,
   .dockerDownloadCmd, .dockerAddCmd, .dockerPackageCmd, .dockerCommitCmd, .dockerCreateCmd,
   .dockerDeleteCmd, .dockerSearchCmd, .dockerListCmd, .dockerResetCmd, .dockerPushCmd]

/-! ## A concrete library for examples -/

/-- A small library whose state is a remap table: `Set` adds the pair
`(prog, value)` when it succeeds and nothing else changes the state.  The
errors are given by `errOf`, `FileExist` answers `present`, the install
directory is `/opt/lpmx` and `filepath.Abs p` is `/cwd/p`. -/
def demoLib (errOf : Call → Option Error) (present : Bool) : Lib (List (String × String)) :=
  fun c s =>
    ({ err := errOf c,
       str := (match c with
         | .GetCurrDir => "/opt/lpmx"
         | .filepathAbs p => "/cwd/" ++ p
         | _ => ""),
       flag := present,
       strs := [],
       rpcMap := [] },
     match c, errOf c with
     | .Set _ _ prog value, none => s ++ [(prog, value)]
     | _, _ => s)

/-- No call fails. -/
def noError : Call → Option Error := fun _ => none

/-- The world before the process has done anything, with an empty table. -/
def World.start : World (List (String × String)) := { st := [], trace := [] }

/-- Whatever world `p` starts in, it only appends events satisfying `P`, and
the library state it ends in is the one the recorded calls lead to. -/
def Emits {σ α : Type} (lib : Lib σ) (P : Event → Prop) (p : Prog σ α) : Prop :=
  ∀ w : World σ, ∃ rest : List Event,
    (p w).world.trace = w.trace ++ rest ∧ (∀ ev ∈ rest, P ev) ∧
    (p w).world.st = replay lib rest w.st

/-- What a `PreRun` hook does once `checkCompleteness` has returned no error:
the cache check of run, rpc exec, docker create and resume (a missing cache is
a warning), the cache check of get and set (every error is fatal), and nothing
for the other commands. -/
def Cmd.afterCheck {σ : Type} (lib : Lib σ) : Cmd → Prog σ Unit
  | .runCmd | .rpcExecCmd | .dockerCreateCmd | .resumeCmd => do
    let r ← call lib Call.CheckAndStartMemcache
    match r.err with
    | some err =>
      if err.Err ≠ ErrKind.ErrNExist then LOGGER.Fatal err.Error
      else LOGGER.Warn "memcached related components are missing, functions may not work properly"
    | none => pure ()
  | .getCmd | .setCmd => do
    let r ← call lib Call.CheckAndStartMemcache
    match r.err with
    | some err => LOGGER.Fatal err.Error
    | none => pure ()
  | _ => pure ()

/-- Events other than the three calls of `checkCompleteness`. -/
def notCheck (ev : Event) : Prop := ev.isCall Call.isCheck = false

/-- The flags of `lpmx set -i c1 -t add_map -n foo -v ab`. -/
def flagsSetNoColon : Flags :=
  { Flags.default with SetId := "c1", SetType := "add_map", SetProg := "foo", SetVal := "ab" }

/-- A world whose table already maps `foo`. -/
def World.withTable : World (List (String × String)) :=
  { st := [("foo", "a:b")], trace := [] }

/-- Only `GetCurrDir` fails. -/
def failGetCurrDir : Call → Option Error
  | .GetCurrDir => some { Err := ErrKind.other 1, msg := "no install directory" }
  | _ => none

/-- The map the spec describes for `Run`: exactly the keys `dir`, `config`
and `passive`. -/
def runConfigMap (dir config : String) (passive : Bool) : ConfigMap :=
  [("dir", Value.str dir), ("config", Value.str config), ("passive", Value.bool passive)]

/-- The fatal log entry that follows a failed operation, or nothing. -/
def fatalTail (err : Option Error) : List Event :=
  match err with
  | some e => [Event.log Level.Fatal [] e.Error]
  | none => []

/-- The configuration of `run` resolves in library state `s`: `--config` is
given, or `<source>/setting.yml` exists for the absolute form of `--source`. -/
def configResolves {σ : Type} (lib : Lib σ) (fl : Flags) (s : σ) : Prop :=
  fl.RunConfig ≠ "" ∨
  (lib (Call.FileExist ((lib (Call.filepathAbs fl.RunSource) s).1.str ++ "/setting.yml"))
    (lib (Call.filepathAbs fl.RunSource) s).2).1.flag = true

/-- Only the cache check fails, with kind `ErrNExist`. -/
def cacheMissing : Call → Option Error
  | .CheckAndStartMemcache => some { Err := ErrKind.ErrNExist, msg := "memcached not found" }
  | _ => none

/-- Only the cache check fails, with a kind other than `ErrNExist`. -/
def cacheBroken : Call → Option Error
  | .CheckAndStartMemcache => some { Err := ErrKind.other 7, msg := "memcached failed" }
  | _ => none

/-- The flags of `lpmx run --source proj`. -/
def flagsRunNoConfig : Flags := { Flags.default with RunSource := "proj" }

/-- Some event of the list is a call of the command's own library operation. -/
def invokedOwn (c : Cmd) (evs : List Event) : Prop :=
  ∃ ev ∈ evs, ev.isCall c.ownOperation = true

/-- The warning logged when the cache components are missing. -/
def cacheWarning : Event :=
  Event.log Level.Warn []
    "memcached related components are missing, functions may not work properly"

/-- The example world after a successful completeness check. -/
def World.checked : World (List (String × String)) :=
  { st := [],
    trace := [Event.call Call.GetCurrDir,
      Event.call (Call.WalkandCheckFilePermission "/opt/lpmx/.lpmxsys" checklist 0o755 true),
      Event.call (Call.CheckCompleteness "/opt/lpmx/.lpmxsys" [".info"])] }

/-- The flags of `lpmx get -i c1 -n foo`. -/
def flagsGet : Flags := { Flags.default with GetId := "c1", GetName := "foo" }

/-- The library operation of command `c` fails, everything else succeeds. -/
def failOperation (c : Cmd) : Call → Option Error := fun call =>
  if call.owner == some c then some { Err := ErrKind.other 2, msg := "operation failed" }
  else none

/-- The flags of `lpmx docker push -u u -p p -n n -t t -i i`. -/
def flagsPush : Flags :=
  { Flags.default with
    DockerPushUser := "u"
    DockerPushPass := "p"
    DockerPushName := "n"
    DockerPushTag := "t"
    DockerPushId := "i" }

/-- The commands `rootCmd.Execute()` can select: the root, its children and the
children of `docker`. -/
def registered : List Cmd :=
  Cmd.rootCmd :: (Cmd.rootCmd.commands ++ Cmd.dockerCmd.commands)

/-- The flags of `lpmx set -i c1 -t bogus_type -n foo -v "a:b;cd"`: only the
first element of the value is a pair and the type is neither `add_map` nor
`remove_map`. -/
def flagsSetPartial : Flags :=
  { Flags.default with SetId := "c1", SetType := "bogus_type", SetProg := "foo", SetVal := "a:b;cd" }

/-- The flags of `lpmx set -i c1 -t add_map -n foo -v ":"`. -/
def flagsSetColonOnly : Flags :=
  { Flags.default with SetId := "c1", SetType := "add_map", SetProg := "foo", SetVal := ":" }

/-- The events after the `Set` call: the fatal entry when `Set` failed, else
the entry reporting success. -/
def setTail (id : String) (err : Option Error) : List Event :=
  match err with
  | some e => [Event.log Level.Fatal [] e.Error]
  | none => [Event.log Level.Info [("container id", id)]
      "container is set with new environment variables"]

/-- The flags of `lpmx rpc kill -i 127.0.0.1 -p 8080 -d -5`. -/
def flagsKillNegative : Flags :=
  { Flags.default with RDeleteIp := "127.0.0.1", RDeletePort := "8080", RDeletePid := "-5" }

/-- The flags of `lpmx rpc kill -i 127.0.0.1 -p 8080 -d 12x`. -/
def flagsKillBadPid : Flags :=
  { Flags.default with RDeleteIp := "127.0.0.1", RDeletePort := "8080", RDeletePid := "12x" }

/-- The events after the `RPCDelete` call: the fatal entry when it failed,
else the entry `DONE`. -/
def doneTail (err : Option Error) : List Event :=
  match err with
  | some e => [Event.log Level.Fatal [] e.Error]
  | none => [Event.log Level.Info [] "DONE"]

/-- The flags set on a `set` command line that gives all four required flags. -/
def givenSet : List String := ["id", "type", "name", "value"]

/-- The flags set on an `rpc kill` command line that gives all three required
flags. -/
def givenKill : List String := ["ip", "port", "pid"]

/-- The flags set on a `docker push` command line with every flag. -/
def givenPush : List String := ["user", "pass", "name", "tag", "id"]

/-- Nothing after the cache check stops the command before its library
operation: every required flag is set and, for run, the configuration
resolves.  For resume and docker create, which have no required flag, this
always holds. -/
def reachesOperation {σ : Type} (lib : Lib σ) (c : Cmd) (fl : Flags) (given : List String)
    (s : σ) : Prop :=
  c.requiredGiven given = true ∧ (c = Cmd.runCmd → configResolves lib fl s)

/-! ## Evaluation lemmas -/

section lemmas
variable {σ α β : Type}

@[simp] theorem bind_apply (m : Prog σ α) (f : α → Prog σ β) (w : World σ) :
    (m >>= f) w = match m w with
      | .ok a w1 => f a w1
      | .exit c w1 => .exit c w1 := rfl

@[simp] theorem pure_apply (a : α) (w : World σ) :
    (Pure.pure a : Prog σ α) w = .ok a w := rfl

@[simp] theorem call_apply (lib : Lib σ) (c : Call) (w : World σ) :
    call lib c w = .ok (lib c w.st).1 ⟨(lib c w.st).2, w.trace ++ [Event.call c]⟩ := rfl

@[simp] theorem emit_apply (e : Event) (w : World σ) :
    (emit e : Prog σ Unit) w = .ok () ⟨w.st, w.trace ++ [e]⟩ := rfl

@[simp] theorem osExit_apply (code : Nat) (w : World σ) :
    (osExit code : Prog σ α) w = .exit code w := rfl

@[simp] theorem Fatal_apply (msg : String) (w : World σ) :
    (LOGGER.Fatal msg : Prog σ Unit) w
      = .exit 1 ⟨w.st, w.trace ++ [Event.log Level.Fatal [] msg]⟩ := rfl

end lemmas

/-- C2: `checkCompleteness` returns no error exactly when `GetCurrDir`, then
`WalkandCheckFilePermission` on `<dir>/.lpmxsys` with the fixed checklist and
mode 0755, then `CheckCompleteness` on the same directory with `[".info"]` all
return no error; otherwise it returns the error of the first failing step, and
the trace shows that no later step was called. -/
theorem checkCompleteness_first_failure {σ : Type} (lib : Lib σ) (w : World σ) :
    checklist = ["faked-sysv", "libfakechroot.so", "libfakeroot.so", "libmemcached"] ∧
    (let r1 := lib Call.GetCurrDir w.st
     let sysdir := r1.1.str ++ "/.lpmxsys"
     let c2 := Call.WalkandCheckFilePermission sysdir checklist 0o755 true
     let r2 := lib c2 r1.2
     let c3 := Call.CheckCompleteness sysdir [".info"]
     let r3 := lib c3 r2.2
     ((∃ w1, checkCompleteness lib w = .ok none w1)
        ↔ (r1.1.err = none ∧ r2.1.err = none ∧ r3.1.err = none)) ∧
     (∀ e, r1.1.err = some e →
        checkCompleteness lib w = .ok (some e) ⟨r1.2, w.trace ++ [Event.call Call.GetCurrDir]⟩) ∧
     (∀ e, r1.1.err = none → r2.1.err = some e →
        checkCompleteness lib w
          = .ok (some e) ⟨r2.2, w.trace ++ [Event.call Call.GetCurrDir, Event.call c2]⟩) ∧
     (r1.1.err = none → r2.1.err = none →
        checkCompleteness lib w
          = .ok r3.1.err
              ⟨r3.2, w.trace ++ [Event.call Call.GetCurrDir, Event.call c2, Event.call c3]⟩)) := by
  refine ⟨rfl, ?_⟩
  intro r1 sysdir c2 r2 c3 r3
  simp only [r1, r2, r3, c2, c3, sysdir, checkCompleteness, bind_apply, call_apply]
  cases h1 : (lib Call.GetCurrDir w.st).1.err with
  | some e1 => simp
  | none =>
    cases h2 : (lib (Call.WalkandCheckFilePermission
        ((lib Call.GetCurrDir w.st).1.str ++ "/.lpmxsys") checklist 0o755 true)
        (lib Call.GetCurrDir w.st).2).1.err with
    | some e2 => simp [h2]
    | none =>
      cases h3 : (lib (Call.CheckCompleteness
          ((lib Call.GetCurrDir w.st).1.str ++ "/.lpmxsys") [".info"])
          (lib (Call.WalkandCheckFilePermission
            ((lib Call.GetCurrDir w.st).1.str ++ "/.lpmxsys") checklist 0o755 true)
            (lib Call.GetCurrDir w.st).2).2).1.err with
      | some e3 => simp [h2, h3]
      | none => simp [h2, h3]


section emits
variable {σ α β : Type}

theorem replay_append (lib : Lib σ) (a b : List Event) (s : σ) :
    replay lib (a ++ b) s = replay lib b (replay lib a s) := by
  induction a generalizing s with
  | nil => rfl
  | cons e a ih => cases e <;> simp [replay, ih]

theorem emits_pure (lib : Lib σ) (P : Event → Prop) (a : α) :
    Emits lib P (Pure.pure a : Prog σ α) := by
  intro w
  exact ⟨[], by simp [Result.world], by simp, by simp [Result.world, replay]⟩

theorem emits_osExit (lib : Lib σ) (P : Event → Prop) (code : Nat) :
    Emits lib P (osExit code : Prog σ α) := by
  intro w
  exact ⟨[], by simp [Result.world], by simp, by simp [Result.world, replay]⟩

theorem emits_emit (lib : Lib σ) (P : Event → Prop) (e : Event) (he : P e)
    (hne : ∀ c, e ≠ Event.call c) : Emits lib P (emit e : Prog σ Unit) := by
  intro w
  refine ⟨[e], by simp [Result.world], by simpa using he, ?_⟩
  cases e with
  | call c => exact absurd rfl (hne c)
  | log _ _ _ => simp [Result.world, replay]
  | println _ => simp [Result.world, replay]
  | panic _ => simp [Result.world, replay]
  | logNumError _ _ _ _ => simp [Result.world, replay]

theorem emits_call (lib : Lib σ) (P : Event → Prop) (c : Call) (hc : P (Event.call c)) :
    Emits lib P (call lib c) := by
  intro w
  exact ⟨[Event.call c], by simp [Result.world], by simpa using hc, by simp [Result.world, replay]⟩

theorem emits_bind (lib : Lib σ) (P : Event → Prop) (m : Prog σ α) (f : α → Prog σ β)
    (hm : Emits lib P m) (hf : ∀ a, Emits lib P (f a)) : Emits lib P (m >>= f) := by
  intro w
  obtain ⟨r1, ht1, hp1, hs1⟩ := hm w
  simp only [bind_apply]
  cases hmw : m w with
  | exit c w1 =>
    rw [hmw] at ht1 hs1
    exact ⟨r1, ht1, hp1, hs1⟩
  | ok a w1 =>
    rw [hmw] at ht1 hs1
    simp only [Result.world] at ht1 hs1
    obtain ⟨r2, ht2, hp2, hs2⟩ := hf a w1
    refine ⟨r1 ++ r2, ?_, ?_, ?_⟩
    · simp [ht2, ht1]
    · intro ev hev
      rcases List.mem_append.mp hev with h | h
      · exact hp1 ev h
      · exact hp2 ev h
    · simp [hs2, hs1, replay_append]

theorem emits_mono (lib : Lib σ) (P Q : Event → Prop) (p : Prog σ α)
    (h : Emits lib P p) (hpq : ∀ ev, P ev → Q ev) : Emits lib Q p := by
  intro w
  obtain ⟨r, ht, hp, hs⟩ := h w
  exact ⟨r, ht, fun ev hev => hpq ev (hp ev hev), hs⟩

theorem emits_logs (lib : Lib σ) (P : Event → Prop) (hlog : ∀ l f m, P (Event.log l f m))
    (msg : String) (fields : List (String × String)) :
    Emits lib P (LOGGER.Fatal msg : Prog σ Unit) ∧
    Emits lib P (LOGGER.WithFields.Fatal fields msg : Prog σ Unit) ∧
    Emits lib P (LOGGER.Error msg : Prog σ Unit) ∧
    Emits lib P (LOGGER.Warn msg : Prog σ Unit) ∧
    Emits lib P (LOGGER.Info msg : Prog σ Unit) ∧
    Emits lib P (LOGGER.WithFields.Info fields msg : Prog σ Unit) := by
  have e1 : ∀ l f m, Emits lib P (Lpmx.emit (Event.log l f m) : Prog σ Unit) :=
    fun l f m => emits_emit lib P _ (hlog l f m) (by intro c h; cases h)
  refine ⟨?_, ?_, e1 _ _ _, e1 _ _ _, e1 _ _ _, e1 _ _ _⟩
  · exact emits_bind lib P _ _ (e1 _ _ _) (fun _ => emits_osExit lib P 1)
  · exact emits_bind lib P _ _ (e1 _ _ _) (fun _ => emits_osExit lib P 1)

end emits


section hooks
variable {σ : Type}

theorem preRun_shape (lib : Lib σ) (c : Cmd) (hc : c ∈ checkedCmds) :
    c.PreRun lib = some (fun _ _ => do
      let err ← checkCompleteness lib
      match err with
      | some err => LOGGER.Fatal err.Error
      | none => c.afterCheck lib) := by
  cases c <;> simp [checkedCmds] at hc <;> rfl

theorem run_isSome (lib : Lib σ) (c : Cmd) (hc : c ∈ checkedCmds) :
    ∃ run, c.Run lib = some run := by
  cases c <;> simp [checkedCmds] at hc <;> exact ⟨_, rfl⟩

theorem notCheck_log (l : Level) (f : List (String × String)) (m : String) :
    notCheck (Event.log l f m) := rfl

theorem emits_println (lib : Lib σ) (P : Event → Prop) (hp : ∀ s, P (Event.println s))
    (line : String) : Emits lib P (fmt.Println line : Prog σ Unit) :=
  emits_emit lib P _ (hp line) (by intro c h; cases h)

theorem emits_argAt (lib : Lib σ) (P : Event → Prop) (hp : ∀ s, P (Event.panic s))
    (args : List String) (i : Nat) : Emits lib P (argAt args i : Prog σ String) := by
  unfold argAt
  split
  · exact emits_pure lib P _
  · exact emits_bind lib P _ _ (emits_emit lib P _ (hp _) (by intro c h; cases h))
      (fun _ => emits_osExit lib P 2)

theorem emits_printRPCMap (lib : Lib σ) (P : Event → Prop) (hp : ∀ s, P (Event.println s))
    (m : List (String × String)) : Emits lib P (printRPCMap m : Prog σ Unit) := by
  induction m with
  | nil => exact emits_pure lib P _
  | cons kv rest ih =>
    obtain ⟨k, v⟩ := kv
    exact emits_bind lib P _ _ (emits_println lib P hp _) (fun _ => ih)

theorem emits_fatalNumError (lib : Lib σ) (P : Event → Prop)
    (hp : ∀ l f n k, P (Event.logNumError l f n k)) (aerr : NumError) :
    Emits lib P (LOGGER.FatalNumError aerr : Prog σ Unit) :=
  emits_bind lib P _ _ (emits_emit lib P _ (hp _ _ _ _) (by intro c h; cases h))
    (fun _ => emits_osExit lib P 1)

theorem emits_runIfRequiredGiven (lib : Lib σ) (P : Event → Prop) (c : Cmd)
    (given : List String) (run : Prog σ Unit) (h : Emits lib P run) :
    Emits lib P (runIfRequiredGiven c given run) := by
  unfold runIfRequiredGiven
  split
  · exact h
  · exact emits_pure lib P _

theorem emits_rpcDelete_Run (lib : Lib σ) (fl : Flags) (args : List String) :
    Emits lib notCheck (rpcDeleteCmd.Run lib fl args) := by
  have hl := fun msg fields => emits_logs lib notCheck notCheck_log msg fields
  have hne : ∀ l f n k, notCheck (Event.logNumError l f n k) := fun _ _ _ _ => rfl
  unfold rpcDeleteCmd.Run
  cases strconv.Atoi fl.RDeletePid with
  | error aerr => exact emits_fatalNumError lib notCheck hne _
  | ok i =>
    refine emits_bind lib notCheck _ _ (emits_call lib notCheck _ rfl) (fun r => ?_)
    cases r.err with
    | some e => exact (hl _ []).1
    | none => exact (hl _ []).2.2.2.2.1

theorem emits_run_hook (lib : Lib σ) (c : Cmd) (run : Handler σ) (hrun : c.Run lib = some run)
    (hc : c ∈ checkedCmds) (fl : Flags) (args : List String) :
    Emits lib notCheck (run fl args) := by
  have hl := fun msg fields => emits_logs lib notCheck notCheck_log msg fields
  have hpr : ∀ s, notCheck (Event.println s) := fun _ => rfl
  have hpa : ∀ s, notCheck (Event.panic s) := fun _ => rfl
  cases c <;> simp [checkedCmds] at hc <;> simp only [Cmd.Run, Option.some.injEq] at hrun <;>
    subst hrun
  case rpcDeleteCmd => exact emits_rpcDelete_Run lib fl args
  all_goals
    simp only [listCmd.Run, runCmd.Run, runCmd.callRun, getCmd.Run, rpcExecCmd.Run,
      rpcQueryCmd.Run, dockerDownloadCmd.Run, dockerAddCmd.Run,
      dockerPackageCmd.Run, dockerCommitCmd.Run, dockerCreateCmd.Run, dockerDeleteCmd.Run,
      dockerSearchCmd.Run, dockerListCmd.Run, dockerResetCmd.Run, dockerPushCmd.Run,
      exposeCmd.Run, resumeCmd.Run, destroyCmd.Run, setCmd.Run]
    repeat
      first
      | exact emits_pure lib notCheck _
      | exact (hl _ []).1
      | exact (hl _ _).2.1
      | exact (hl _ []).2.2.1
      | exact (hl _ []).2.2.2.1
      | exact (hl _ []).2.2.2.2.1
      | exact (hl _ _).2.2.2.2.2
      | exact emits_println lib notCheck hpr _
      | exact emits_printRPCMap lib notCheck hpr _
      | exact emits_argAt lib notCheck hpa _ _
      | exact emits_call lib notCheck _ rfl
      | refine emits_bind lib notCheck _ _ ?_ (fun _ => ?_)
      | split

end hooks


section check
variable {σ : Type}

theorem checkCompleteness_returns (lib : Lib σ) (w : World σ) :
    ∃ r w1 pre, checkCompleteness lib w = .ok r w1 ∧ w1.trace = w.trace ++ pre ∧
      (∀ ev ∈ pre, ev.isCall Call.isCheck = true) ∧
      pre.count (Event.call Call.GetCurrDir) = 1 ∧ w1.st = replay lib pre w.st := by
  simp only [checkCompleteness, bind_apply, call_apply]
  cases h1 : (lib Call.GetCurrDir w.st).1.err with
  | some e1 =>
    exact ⟨_, _, [Event.call Call.GetCurrDir], rfl, rfl, by simp [Event.isCall, Call.isCheck],
      by simp, by simp [replay]⟩
  | none =>
    cases h2 : (lib (Call.WalkandCheckFilePermission
        ((lib Call.GetCurrDir w.st).1.str ++ "/.lpmxsys") checklist 0o755 true)
        (lib Call.GetCurrDir w.st).2).1.err with
    | some e2 =>
      simp only [bind_apply, call_apply, h2, pure_apply]
      exact ⟨_, _, [Event.call Call.GetCurrDir, Event.call (Call.WalkandCheckFilePermission
        ((lib Call.GetCurrDir w.st).1.str ++ "/.lpmxsys") checklist 0o755 true)], rfl,
        by simp, by simp [Event.isCall, Call.isCheck], by simp [List.count_cons],
        by simp [replay]⟩
    | none =>
      simp only [bind_apply, call_apply, h2]
      cases h3 : (lib (Call.CheckCompleteness
          ((lib Call.GetCurrDir w.st).1.str ++ "/.lpmxsys") [".info"])
          (lib (Call.WalkandCheckFilePermission
            ((lib Call.GetCurrDir w.st).1.str ++ "/.lpmxsys") checklist 0o755 true)
            (lib Call.GetCurrDir w.st).2).2).1.err with
      | some e3 =>
        simp only [h3, pure_apply]
        exact ⟨_, _, [Event.call Call.GetCurrDir, Event.call (Call.WalkandCheckFilePermission
          ((lib Call.GetCurrDir w.st).1.str ++ "/.lpmxsys") checklist 0o755 true),
          Event.call (Call.CheckCompleteness
            ((lib Call.GetCurrDir w.st).1.str ++ "/.lpmxsys") [".info"])], rfl,
          by simp, by simp [Event.isCall, Call.isCheck], by simp [List.count_cons],
          by simp [replay]⟩
      | none =>
        simp only [h3, pure_apply]
        exact ⟨_, _, [Event.call Call.GetCurrDir, Event.call (Call.WalkandCheckFilePermission
          ((lib Call.GetCurrDir w.st).1.str ++ "/.lpmxsys") checklist 0o755 true),
          Event.call (Call.CheckCompleteness
            ((lib Call.GetCurrDir w.st).1.str ++ "/.lpmxsys") [".info"])], rfl,
          by simp, by simp [Event.isCall, Call.isCheck], by simp [List.count_cons],
          by simp [replay]⟩

theorem emits_afterCheck (lib : Lib σ) (P : Event → Prop)
    (hlog : ∀ l f m, P (Event.log l f m)) (hmem : P (Event.call Call.CheckAndStartMemcache))
    (c : Cmd) : Emits lib P (c.afterCheck lib) := by
  have hl := fun msg fields => emits_logs lib P hlog msg fields
  cases c <;> simp only [Cmd.afterCheck]
  all_goals
    repeat
      first
      | exact emits_pure lib P _
      | exact (hl _ []).1
      | exact (hl _ []).2.2.2.1
      | exact emits_call lib P _ hmem
      | refine emits_bind lib P _ _ ?_ (fun _ => ?_)
      | split

theorem invoke_check_failed (lib : Lib σ) (c : Cmd) (hc : c ∈ checkedCmds)
    (fl : Flags) (given args : List String) (w w1 : World σ)
    (e : Error) (h : checkCompleteness lib w = .ok (some e) w1) :
    invoke lib c fl given args w
      = .exit 1 ⟨w1.st, w1.trace ++ [Event.log Level.Fatal [] e.Error]⟩ := by
  obtain ⟨run, hrun⟩ := run_isSome lib c hc
  simp [invoke, hrun, preRun_shape lib c hc, h]

theorem invoke_check_passed (lib : Lib σ) (c : Cmd) (hc : c ∈ checkedCmds) (run : Handler σ)
    (hrun : c.Run lib = some run) (fl : Flags) (given args : List String) (w w1 : World σ)
    (h : checkCompleteness lib w = .ok none w1) :
    invoke lib c fl given args w
      = (c.afterCheck lib >>= fun _ => runIfRequiredGiven c given (run fl args)) w1 := by
  simp [invoke, hrun, preRun_shape lib c hc, h]

end check


/-- C3: for every command with hooks other than init, uninstall and version,
`checkCompleteness` is run first and exactly once per invocation (the events it
adds come before everything else and no later event is one of its calls, so
`GetCurrDir` is called exactly once); when it returns an error the command ends
with status 1 right after the fatal log entry, having called neither a library
operation nor `CheckAndStartMemcache`. -/
theorem completeness_checked_once_then_fatal {σ : Type} (lib : Lib σ) (c : Cmd)
    (hrun : (c.Run lib).isSome = true)
    (hne : c ≠ Cmd.initCmd ∧ c ≠ Cmd.uninstallCmd ∧ c ≠ Cmd.versionCmd)
    (fl : Flags) (given args : List String) (w : World σ) :
    ∃ r w1 pre rest,
      checkCompleteness lib w = .ok r w1 ∧
      w1.trace = w.trace ++ pre ∧
      (∀ ev ∈ pre, ev.isCall Call.isCheck = true) ∧
      (invoke lib c fl given args w).world.trace = w1.trace ++ rest ∧
      (∀ ev ∈ rest, ev.isCall Call.isCheck = false) ∧
      (newEvents w (invoke lib c fl given args w)).count (Event.call Call.GetCurrDir) = 1 ∧
      (∀ e, r = some e →
        invoke lib c fl given args w
          = .exit 1 ⟨w1.st, w1.trace ++ [Event.log Level.Fatal [] e.Error]⟩ ∧
        (∀ ev ∈ newEvents w (invoke lib c fl given args w),
          ev.isCall Call.isOperation = false ∧ ev ≠ Event.call Call.CheckAndStartMemcache)) := by
  have hc : c ∈ checkedCmds := by
    obtain ⟨h1, h2, h3⟩ := hne
    cases c <;> simp_all [checkedCmds, Cmd.Run]
  obtain ⟨run, hr⟩ := run_isSome lib c hc
  obtain ⟨r, w1, pre, hcheck, htr, hpre, hcount, _⟩ := checkCompleteness_returns lib w
  have hrest : ∃ rest, (invoke lib c fl given args w).world.trace = w1.trace ++ rest ∧
      (∀ ev ∈ rest, ev.isCall Call.isCheck = false) ∧
      (∀ e, r = some e → rest = [Event.log Level.Fatal [] e.Error] ∧
        invoke lib c fl given args w
          = .exit 1 ⟨w1.st, w1.trace ++ [Event.log Level.Fatal [] e.Error]⟩) := by
    cases r with
    | some e =>
      have hinv := invoke_check_failed lib c hc fl given args w w1 e hcheck
      rw [hinv]
      exact ⟨[Event.log Level.Fatal [] e.Error], rfl, by simp [Event.isCall],
        fun _ he => by cases he; exact ⟨rfl, rfl⟩⟩
    | none =>
      rw [invoke_check_passed lib c hc run hr fl given args w w1 hcheck]
      obtain ⟨rest, h1, h2, _⟩ :=
        emits_bind lib notCheck _ _
          (emits_afterCheck lib notCheck notCheck_log rfl c)
          (fun _ => emits_runIfRequiredGiven lib notCheck c given _
            (emits_run_hook lib c run hr hc fl args)) w1
      exact ⟨rest, h1, h2, fun e he => by cases he⟩
  obtain ⟨rest, hrt, hrn, hfat⟩ := hrest
  have hnew : newEvents w (invoke lib c fl given args w) = pre ++ rest := by
    simp [newEvents, hrt, htr]
  refine ⟨r, w1, pre, rest, hcheck, htr, hpre, hrt, hrn, ?_, ?_⟩
  · rw [hnew, List.count_append, hcount]
    have : rest.count (Event.call Call.GetCurrDir) = 0 := by
      apply List.count_eq_zero.mpr
      intro hmem
      have := hrn _ hmem
      simp [Event.isCall, Call.isCheck] at this
    omega
  · intro e he
    subst he
    refine ⟨(hfat e rfl).2, ?_⟩
    intro ev hev
    rw [hnew, (hfat e rfl).1] at hev
    rcases List.mem_append.mp hev with h | h
    · have := hpre ev h
      cases ev with
      | call c0 => cases c0 <;> simp_all [Event.isCall, Call.isCheck, Call.isOperation]
      | log _ _ _ => simp [Event.isCall]
      | println _ => simp [Event.isCall]
      | panic _ => simp [Event.isCall]
      | logNumError _ _ _ _ => simp [Event.isCall]
    · simp at h
      subst h
      simp [Event.isCall]


theorem containsFrom_singleton (ch : Char) (l : List Char) :
    strings.containsFrom [ch] l = true ↔ ch ∈ l := by
  induction l with
  | nil => simp [strings.containsFrom, List.isPrefixOf]
  | cons c cs ih =>
    simp only [strings.containsFrom, List.isPrefixOf, Bool.or_eq_true, ih, List.mem_cons]
    constructor
    · rintro (h | h)
      · left
        simpa using h
      · right; exact h
    · rintro (h | h)
      · left
        subst h
        cases cs <;> simp [List.isPrefixOf]
      · right; exact h

theorem contains_colon (s : String) : strings.Contains s ":" = true ↔ ':' ∈ s.data := by
  unfold strings.Contains
  exact containsFrom_singleton ':' s.data

theorem replay_keeps {σ T : Type} (lib : Lib σ) (table : σ → T) (p : Call → Bool)
    (honly : ∀ c s, p c = false → table (lib c s).2 = table s)
    (evs : List Event) (hevs : ∀ ev ∈ evs, ev.isCall p = false) (s : σ) :
    table (replay lib evs s) = table s := by
  induction evs generalizing s with
  | nil => rfl
  | cons ev rest ih =>
    have hrest : ∀ ev ∈ rest, ev.isCall p = false := fun e he => hevs e (List.mem_cons_of_mem _ he)
    cases ev with
    | call c =>
      have hc : p c = false := by simpa [Event.isCall] using hevs (Event.call c) (by simp)
      simp only [replay]
      rw [ih hrest, honly c s hc]
    | log _ _ _ => simpa [replay] using ih hrest s
    | println _ => simpa [replay] using ih hrest s
    | panic _ => simpa [replay] using ih hrest s
    | logNumError _ _ _ _ => simpa [replay] using ih hrest s

theorem check_call_is_no_set (ev : Event) (h : ev.isCall Call.isCheck = true) :
    ev.isCall Call.isSet = false := by
  cases ev with
  | call c0 => cases c0 <;> simp [Event.isCall, Call.isCheck, Call.isSet] at h ⊢
  | log _ _ _ => rfl
  | println _ => rfl
  | panic _ => rfl
  | logNumError _ _ _ _ => rfl

/-- C1: when the `--value` string of `set` contains no `:`, no call of `Set` is
made and a remap table that only `Set` can change is the same afterwards as
before; the invocation ends with status 1 (a fatal log entry) whenever the four
required flags are set.  When one of them is omitted and the pre-run checks
pass, cobra stops before `Run` and the process ends with status 0. -/
theorem set_without_colon_is_fatal {σ T : Type} (lib : Lib σ) (table : σ → T)
    (honly : ∀ c s, c.isSet = false → table (lib c s).2 = table s)
    (fl : Flags) (hval : ':' ∉ fl.SetVal.data) (given args : List String) (w : World σ) :
    (∀ ev ∈ newEvents w (invoke lib Cmd.setCmd fl given args w),
      ev.isCall Call.isSet = false) ∧
    table (invoke lib Cmd.setCmd fl given args w).world.st = table w.st ∧
    (Cmd.setCmd.requiredGiven given = true →
      ∃ w2, invoke lib Cmd.setCmd fl given args w = .exit 1 w2) ∧
    (Cmd.setCmd.requiredGiven given = false →
      ∀ w1, checkCompleteness lib w = .ok none w1 →
        (lib Call.CheckAndStartMemcache w1.st).1.err = none →
        invoke lib Cmd.setCmd fl given args w
          = .ok () ⟨(lib Call.CheckAndStartMemcache w1.st).2,
              w1.trace ++ [Event.call Call.CheckAndStartMemcache]⟩) := by
  have hcontains : strings.Contains fl.SetVal ":" = false := by
    cases h : strings.Contains fl.SetVal ":" with
    | false => rfl
    | true => exact absurd ((contains_colon _).mp h) hval
  have hset : (Cmd.setCmd) ∈ checkedCmds := by simp [checkedCmds]
  have hlog : ∀ l f m, (fun ev : Event => ev.isCall Call.isSet = false) (Event.log l f m) :=
    fun _ _ _ => rfl
  have hrunE : Emits lib (fun ev => ev.isCall Call.isSet = false) (setCmd.Run lib fl args) := by
    simp only [setCmd.Run, hcontains]
    exact (emits_logs lib _ hlog _ _).2.1
  obtain ⟨r, w1, pre, hcheck, htr, hpre, _, hst⟩ := checkCompleteness_returns lib w
  have key : ∃ rest,
      (Cmd.setCmd.requiredGiven given = true →
        ∃ w2, invoke lib Cmd.setCmd fl given args w = .exit 1 w2) ∧
      (invoke lib Cmd.setCmd fl given args w).world.trace = w1.trace ++ rest ∧
      (invoke lib Cmd.setCmd fl given args w).world.st = replay lib rest w1.st ∧
      (∀ ev ∈ rest, ev.isCall Call.isSet = false) := by
    cases r with
    | some e =>
      rw [invoke_check_failed lib _ hset fl given args w w1 e hcheck]
      exact ⟨[Event.log Level.Fatal [] e.Error], fun _ => ⟨_, rfl⟩, rfl, rfl,
        by simp [Event.isCall]⟩
    | none =>
      rw [invoke_check_passed lib _ hset (setCmd.Run lib) rfl fl given args w w1 hcheck]
      obtain ⟨rest, h1, h2, h3⟩ :=
        emits_bind lib _ _ _
          (emits_afterCheck lib (fun ev => ev.isCall Call.isSet = false) hlog rfl Cmd.setCmd)
          (fun _ => emits_runIfRequiredGiven lib _ Cmd.setCmd given _ hrunE) w1
      refine ⟨rest, ?_, h1, h3, h2⟩
      intro hreq
      simp only [Cmd.afterCheck, runIfRequiredGiven, hreq, if_true, setCmd.Run, bind_apply,
        call_apply, hcontains]
      cases (lib Call.CheckAndStartMemcache w1.st).1.err with
      | some e => exact ⟨_, rfl⟩
      | none => exact ⟨_, rfl⟩
  obtain ⟨rest, hexit, htrace, hstate, hrest⟩ := key
  have hall : ∀ ev ∈ pre ++ rest, ev.isCall Call.isSet = false := by
    intro ev hev
    rcases List.mem_append.mp hev with h | h
    · exact check_call_is_no_set ev (hpre ev h)
    · exact hrest ev h
  refine ⟨?_, ?_, hexit, ?_⟩
  · simpa [newEvents, htrace, htr] using hall
  · rw [hstate, hst, ← replay_append]
    exact replay_keeps lib table Call.isSet honly _ hall w.st
  · intro hreq w0 hc0 hm0
    rw [invoke_check_passed lib _ hset (setCmd.Run lib) rfl fl given args w w0 hc0]
    simp [Cmd.afterCheck, runIfRequiredGiven, hreq, hm0]


theorem demoLib_only_set (errOf : Call → Option Error) (present : Bool) (c : Call)
    (s : List (String × String)) (h : c.isSet = false) : (demoLib errOf present c s).2 = s := by
  cases c <;> first | rfl | simp [Call.isSet] at h

/-- Witness for C1: `set -i c1 -t add_map -n foo -v ab` on the example
library. -/
theorem set_without_colon_is_fatal_witness :
    ':' ∉ flagsSetNoColon.SetVal.data ∧
    Cmd.setCmd.requiredGiven givenSet = true ∧
    (∀ ev ∈ newEvents World.withTable
        (invoke (demoLib noError true) Cmd.setCmd flagsSetNoColon givenSet [] World.withTable),
      ev.isCall Call.isSet = false) ∧
    (invoke (demoLib noError true) Cmd.setCmd flagsSetNoColon givenSet []
        World.withTable).world.st = World.withTable.st ∧
    (∃ w2, invoke (demoLib noError true) Cmd.setCmd flagsSetNoColon givenSet [] World.withTable
        = .exit 1 w2) :=
  ⟨by decide, rfl,
   (set_without_colon_is_fatal (demoLib noError true) (fun s => s)
     (fun c s h => demoLib_only_set noError true c s h) flagsSetNoColon (by decide) givenSet []
     World.withTable).1,
   (set_without_colon_is_fatal (demoLib noError true) (fun s => s)
     (fun c s h => demoLib_only_set noError true c s h) flagsSetNoColon (by decide) givenSet []
     World.withTable).2.1,
   (set_without_colon_is_fatal (demoLib noError true) (fun s => s)
     (fun c s h => demoLib_only_set noError true c s h) flagsSetNoColon (by decide) givenSet []
     World.withTable).2.2.1 rfl⟩

/-- Witness for C3: `list` when the install directory cannot be found. -/
theorem completeness_checked_once_then_fatal_witness :
    (Cmd.Run (demoLib failGetCurrDir true) Cmd.listCmd).isSome = true ∧
    ∃ r w1 pre rest,
      checkCompleteness (demoLib failGetCurrDir true) World.start = .ok r w1 ∧
      w1.trace = World.start.trace ++ pre ∧
      (∀ ev ∈ pre, ev.isCall Call.isCheck = true) ∧
      (invoke (demoLib failGetCurrDir true) Cmd.listCmd Flags.default [] [] World.start).world.trace
        = w1.trace ++ rest ∧
      (∀ ev ∈ rest, ev.isCall Call.isCheck = false) ∧
      (newEvents World.start
        (invoke (demoLib failGetCurrDir true) Cmd.listCmd Flags.default [] [] World.start)).count
          (Event.call Call.GetCurrDir) = 1 ∧
      (∀ e, r = some e →
        invoke (demoLib failGetCurrDir true) Cmd.listCmd Flags.default [] [] World.start
          = .exit 1 ⟨w1.st, w1.trace ++ [Event.log Level.Fatal [] e.Error]⟩ ∧
        (∀ ev ∈ newEvents World.start
            (invoke (demoLib failGetCurrDir true) Cmd.listCmd Flags.default [] [] World.start),
          ev.isCall Call.isOperation = false ∧ ev ≠ Event.call Call.CheckAndStartMemcache)) :=
  ⟨rfl, completeness_checked_once_then_fatal (demoLib failGetCurrDir true) Cmd.listCmd rfl
    ⟨by decide, by decide, by decide⟩ Flags.default [] [] World.start⟩


section runhook
variable {σ : Type}

theorem runCmd_configmap (dir config : String) (passive : Bool) :
    ((ConfigMap.set [] "dir" (Value.str dir)).set "config" (Value.str config)).set "passive"
      (Value.bool passive) = runConfigMap dir config passive := by
  simp [ConfigMap.set, runConfigMap]

theorem callRun_events (lib : Lib σ) (dir config : String) (passive : Bool) (w : World σ) :
    (runCmd.callRun lib dir config passive w).world.trace
      = w.trace ++ (Event.call (Call.Run (runConfigMap dir config passive)) ::
          fatalTail (lib (Call.Run (runConfigMap dir config passive)) w.st).1.err) ∧
    (runCmd.callRun lib dir config passive w).status
      = if (lib (Call.Run (runConfigMap dir config passive)) w.st).1.err = none then 0 else 1 := by
  simp only [runCmd.callRun, runCmd_configmap, bind_apply, call_apply]
  cases (lib (Call.Run (runConfigMap dir config passive)) w.st).1.err with
  | some e => simp [Result.world, Result.status, fatalTail]
  | none => simp [Result.world, Result.status, fatalTail]

theorem newEvents_of_trace {α : Type} (w : World σ) (res : Result σ α) (evs : List Event)
    (h : res.world.trace = w.trace ++ evs) : newEvents w res = evs := by
  simp [newEvents, h]

theorem runCmd_Run_given_config (lib : Lib σ) (fl : Flags) (args : List String) (w : World σ)
    (h : fl.RunConfig ≠ "") :
    runCmd.Run lib fl args w
      = runCmd.callRun lib (lib (Call.filepathAbs fl.RunSource) w.st).1.str
          (lib (Call.filepathAbs fl.RunConfig) (lib (Call.filepathAbs fl.RunSource) w.st).2).1.str
          fl.RunPassive
          ⟨(lib (Call.filepathAbs fl.RunConfig) (lib (Call.filepathAbs fl.RunSource) w.st).2).2,
           w.trace ++ [Event.call (Call.filepathAbs fl.RunSource),
             Event.call (Call.filepathAbs fl.RunConfig)]⟩ := by
  simp [runCmd.Run, h]

theorem runCmd_Run_found (lib : Lib σ) (fl : Flags) (args : List String) (w : World σ)
    (h : fl.RunConfig = "")
    (hx : (lib (Call.FileExist ((lib (Call.filepathAbs fl.RunSource) w.st).1.str ++ "/setting.yml"))
      (lib (Call.filepathAbs fl.RunSource) w.st).2).1.flag = true) :
    runCmd.Run lib fl args w
      = runCmd.callRun lib (lib (Call.filepathAbs fl.RunSource) w.st).1.str
          ((lib (Call.filepathAbs fl.RunSource) w.st).1.str ++ "/setting.yml")
          fl.RunPassive
          ⟨(lib (Call.FileExist ((lib (Call.filepathAbs fl.RunSource) w.st).1.str ++ "/setting.yml"))
              (lib (Call.filepathAbs fl.RunSource) w.st).2).2,
           w.trace ++ [Event.call (Call.filepathAbs fl.RunSource),
             Event.call (Call.FileExist
               ((lib (Call.filepathAbs fl.RunSource) w.st).1.str ++ "/setting.yml"))]⟩ := by
  simp [runCmd.Run, h, hx]

theorem runCmd_Run_missing (lib : Lib σ) (fl : Flags) (args : List String) (w : World σ)
    (h : fl.RunConfig = "")
    (hx : (lib (Call.FileExist ((lib (Call.filepathAbs fl.RunSource) w.st).1.str ++ "/setting.yml"))
      (lib (Call.filepathAbs fl.RunSource) w.st).2).1.flag = false) :
    runCmd.Run lib fl args w
      = .exit 1
          ⟨(lib (Call.FileExist ((lib (Call.filepathAbs fl.RunSource) w.st).1.str ++ "/setting.yml"))
              (lib (Call.filepathAbs fl.RunSource) w.st).2).2,
           w.trace ++ [Event.call (Call.filepathAbs fl.RunSource),
             Event.call (Call.FileExist
               ((lib (Call.filepathAbs fl.RunSource) w.st).1.str ++ "/setting.yml")),
             Event.log Level.Fatal [] "can\x27t locate the setting.yml in source folder"]⟩ := by
  simp [runCmd.Run, h, hx]

end runhook


/-- C10: configuration resolution of `run`, with `S` the absolute form of
`--source`.  A non-empty `--config` is made absolute and handed to `Run`
without a call of `FileExist`; an empty one resolves to `S/setting.yml` when
that file exists; otherwise the command ends fatally and `Run` is not called.
Every map handed to `Run` has exactly the keys `dir` (= `S`), `config` (= the
resolved path) and `passive` (= the flag). -/
theorem run_config_resolution {σ : Type} (lib : Lib σ) (fl : Flags) (args : List String)
    (w : World σ) :
    let a := lib (Call.filepathAbs fl.RunSource) w.st
    let S := a.1.str
    let b := lib (Call.filepathAbs fl.RunConfig) a.2
    let x := lib (Call.FileExist (S ++ "/setting.yml")) a.2
    let new := newEvents w (runCmd.Run lib fl args w)
    (runConfigMap S b.1.str fl.RunPassive).keys = ["dir", "config", "passive"] ∧
    (fl.RunConfig ≠ "" →
      new = [Event.call (Call.filepathAbs fl.RunSource),
             Event.call (Call.filepathAbs fl.RunConfig),
             Event.call (Call.Run (runConfigMap S b.1.str fl.RunPassive))]
            ++ fatalTail (lib (Call.Run (runConfigMap S b.1.str fl.RunPassive)) b.2).1.err) ∧
    (fl.RunConfig = "" → x.1.flag = true →
      new = [Event.call (Call.filepathAbs fl.RunSource),
             Event.call (Call.FileExist (S ++ "/setting.yml")),
             Event.call (Call.Run (runConfigMap S (S ++ "/setting.yml") fl.RunPassive))]
            ++ fatalTail
                (lib (Call.Run (runConfigMap S (S ++ "/setting.yml") fl.RunPassive)) x.2).1.err) ∧
    (fl.RunConfig = "" → x.1.flag = false →
      (runCmd.Run lib fl args w).status = 1 ∧
      new = [Event.call (Call.filepathAbs fl.RunSource),
             Event.call (Call.FileExist (S ++ "/setting.yml")),
             Event.log Level.Fatal [] "can\x27t locate the setting.yml in source folder"]) ∧
    (∀ cm, Event.call (Call.Run cm) ∈ new →
      cm = runConfigMap S (if fl.RunConfig ≠ "" then b.1.str else S ++ "/setting.yml")
        fl.RunPassive) := by
  intro a S b x new
  have h1 : fl.RunConfig ≠ "" →
      new = [Event.call (Call.filepathAbs fl.RunSource),
             Event.call (Call.filepathAbs fl.RunConfig),
             Event.call (Call.Run (runConfigMap S b.1.str fl.RunPassive))]
            ++ fatalTail (lib (Call.Run (runConfigMap S b.1.str fl.RunPassive)) b.2).1.err := by
    intro h
    apply newEvents_of_trace
    rw [runCmd_Run_given_config lib fl args w h, (callRun_events lib _ _ _ _).1]
    simp [a, S, b]
  have h2 : fl.RunConfig = "" → x.1.flag = true →
      new = [Event.call (Call.filepathAbs fl.RunSource),
             Event.call (Call.FileExist (S ++ "/setting.yml")),
             Event.call (Call.Run (runConfigMap S (S ++ "/setting.yml") fl.RunPassive))]
            ++ fatalTail
                (lib (Call.Run (runConfigMap S (S ++ "/setting.yml") fl.RunPassive)) x.2).1.err := by
    intro h hx
    apply newEvents_of_trace
    rw [runCmd_Run_found lib fl args w h hx, (callRun_events lib _ _ _ _).1]
    simp [a, S, x]
  have h3 : fl.RunConfig = "" → x.1.flag = false →
      (runCmd.Run lib fl args w).status = 1 ∧
      new = [Event.call (Call.filepathAbs fl.RunSource),
             Event.call (Call.FileExist (S ++ "/setting.yml")),
             Event.log Level.Fatal [] "can\x27t locate the setting.yml in source folder"] := by
    intro h hx
    refine ⟨?_, ?_⟩
    · rw [runCmd_Run_missing lib fl args w h hx]
      rfl
    · apply newEvents_of_trace
      rw [runCmd_Run_missing lib fl args w h hx]
      rfl
  refine ⟨rfl, h1, h2, h3, ?_⟩
  intro cm hcm
  have notTail : ∀ err, Event.call (Call.Run cm) ∉ fatalTail err := by
    intro err
    cases err <;> simp [fatalTail]
  by_cases h : fl.RunConfig ≠ ""
  · rw [h1 h] at hcm
    simp only [if_pos h]
    rcases List.mem_append.mp hcm with hm | hm
    · simp at hm
      exact hm
    · exact absurd hm (notTail _)
  · have h0 : fl.RunConfig = "" := not_not.mp h
    simp only [if_neg h]
    cases hx : x.1.flag with
    | true =>
      rw [h2 h0 hx] at hcm
      rcases List.mem_append.mp hcm with hm | hm
      · simp at hm
        exact hm
      · exact absurd hm (notTail _)
    | false =>
      rw [(h3 h0 hx).2] at hcm
      simp at hcm


section cache
variable {σ : Type}

theorem check_call_is_no_operation (c : Cmd) (ev : Event) (h : ev.isCall Call.isCheck = true) :
    ev.isCall c.ownOperation = false := by
  cases ev with
  | call c0 =>
    cases c0 <;> simp [Event.isCall, Call.isCheck] at h <;>
      simp [Event.isCall, Cmd.ownOperation, Call.owner]
  | log _ _ _ => rfl
  | println _ => rfl
  | panic _ => rfl
  | logNumError _ _ _ _ => rfl

theorem fatalTail_no_call (err : Option Error) (p : Call → Bool) :
    ∀ ev ∈ fatalTail err, ev.isCall p = false := by
  cases err <;> simp [fatalTail, Event.isCall]

theorem run_hook_reaches (lib : Lib σ) (fl : Flags) (args : List String) (w : World σ) :
    ∃ evs, (runCmd.Run lib fl args w).world.trace = w.trace ++ evs ∧
      ((∃ ev ∈ evs, ev.isCall (Cmd.ownOperation Cmd.runCmd) = true)
        ↔ configResolves lib fl w.st) := by
  by_cases h : fl.RunConfig ≠ ""
  · rw [runCmd_Run_given_config lib fl args w h, (callRun_events lib _ _ _ _).1]
    simp only [List.append_assoc]
    refine ⟨_, rfl, ?_⟩
    · constructor
      · intro _
        exact Or.inl h
      · intro _
        exact ⟨Event.call (Call.Run _), List.mem_append_right _ (List.mem_cons_self _ _), rfl⟩
  · have h0 : fl.RunConfig = "" := not_not.mp h
    cases hx : (lib (Call.FileExist ((lib (Call.filepathAbs fl.RunSource) w.st).1.str
        ++ "/setting.yml")) (lib (Call.filepathAbs fl.RunSource) w.st).2).1.flag with
    | true =>
      rw [runCmd_Run_found lib fl args w h0 hx, (callRun_events lib _ _ _ _).1]
      simp only [List.append_assoc]
      refine ⟨_, rfl, ?_⟩
      · constructor
        · intro _
          exact Or.inr hx
        · intro _
          exact ⟨Event.call (Call.Run _), List.mem_append_right _ (List.mem_cons_self _ _), rfl⟩
    | false =>
      rw [runCmd_Run_missing lib fl args w h0 hx]
      refine ⟨_, rfl, ?_⟩
      · constructor
        · rintro ⟨ev, hev, hop⟩
          simp at hev
          rcases hev with rfl | rfl | rfl <;>
            simp [Event.isCall, Cmd.ownOperation, Call.owner] at hop
        · rintro (hc | hc)
          · exact absurd h0 hc
          · rw [hx] at hc
            cases hc

theorem arg_hooks_reach (lib : Lib σ) (c : Cmd)
    (hc : c = Cmd.resumeCmd ∨ c = Cmd.rpcExecCmd ∨ c = Cmd.dockerCreateCmd)
    (run : Handler σ) (hrun : c.Run lib = some run) (fl : Flags) (args : List String)
    (hargs : c.Args.accepts args = true) (w : World σ) :
    ∃ evs, (run fl args w).world.trace = w.trace ++ evs ∧
      ∃ ev ∈ evs, ev.isCall c.ownOperation = true := by
  cases args with
  | nil => rcases hc with rfl | rfl | rfl <;> simp [Cmd.Args, ArgsRule.accepts] at hargs
  | cons a0 rest =>
    rcases hc with rfl | rfl | rfl <;> simp only [Cmd.Run, Option.some.injEq] at hrun <;>
      subst hrun
    · simp only [resumeCmd.Run, argAt, bind_apply, call_apply, List.getElem?_cons_zero,
        Prog.pure, List.drop_succ_cons, List.drop_zero]
      cases (lib (Call.Resume a0 rest) w.st).1.err <;>
        simp [Result.world, Event.isCall, Cmd.ownOperation, Call.owner]
    · simp only [rpcExecCmd.Run, argAt, bind_apply, call_apply, List.getElem?_cons_zero,
        Prog.pure, List.drop_succ_cons, List.drop_zero]
      cases (lib (Call.RPCExec fl.RExecIp fl.RExecPort fl.RExecTimeout a0 rest) w.st).1.err <;>
        simp [Result.world, LOGGER.Info, Event.isCall, Cmd.ownOperation, Call.owner]
    · simp only [dockerCreateCmd.Run, argAt, bind_apply, call_apply, List.getElem?_cons_zero,
        Prog.pure]
      cases (lib (Call.DockerCreate a0 fl.DockerCreateName) w.st).1.err <;>
        simp [Result.world, Event.isCall, Cmd.ownOperation, Call.owner]

end cache


section cache4
variable {σ : Type}

theorem afterCheck_warn (lib : Lib σ) (c : Cmd)
    (hc : c = Cmd.runCmd ∨ c = Cmd.resumeCmd ∨ c = Cmd.rpcExecCmd ∨ c = Cmd.dockerCreateCmd)
    (w : World σ) :
    c.afterCheck lib w =
      match (lib Call.CheckAndStartMemcache w.st).1.err with
      | some e =>
        if e.Err ≠ ErrKind.ErrNExist then
          .exit 1 ⟨(lib Call.CheckAndStartMemcache w.st).2,
            w.trace ++ [Event.call Call.CheckAndStartMemcache,
              Event.log Level.Fatal [] e.Error]⟩
        else
          .ok () ⟨(lib Call.CheckAndStartMemcache w.st).2,
            w.trace ++ [Event.call Call.CheckAndStartMemcache,
              Event.log Level.Warn []
                "memcached related components are missing, functions may not work properly"]⟩
      | none =>
        .ok () ⟨(lib Call.CheckAndStartMemcache w.st).2,
          w.trace ++ [Event.call Call.CheckAndStartMemcache]⟩ := by
  rcases hc with rfl | rfl | rfl | rfl <;>
    simp only [Cmd.afterCheck, bind_apply, call_apply] <;>
    cases (lib Call.CheckAndStartMemcache w.st).1.err with
    | none => simp
    | some e => by_cases h : e.Err = ErrKind.ErrNExist <;> simp [h, LOGGER.Warn]

theorem hook_reaches (lib : Lib σ) (c : Cmd)
    (hc : c = Cmd.runCmd ∨ c = Cmd.resumeCmd ∨ c = Cmd.rpcExecCmd ∨ c = Cmd.dockerCreateCmd)
    (run : Handler σ) (hrun : c.Run lib = some run) (fl : Flags) (args : List String)
    (hargs : c.Args.accepts args = true) (w : World σ) :
    ∃ evs, (run fl args w).world.trace = w.trace ++ evs ∧
      (invokedOwn c evs ↔ (c = Cmd.runCmd → configResolves lib fl w.st)) := by
  rcases hc with rfl | hc
  · simp only [Cmd.Run, Option.some.injEq] at hrun
    subst hrun
    obtain ⟨evs, h1, h2⟩ := run_hook_reaches lib fl args w
    exact ⟨evs, h1, by simpa [invokedOwn] using h2⟩
  · obtain ⟨evs, h1, h2⟩ := arg_hooks_reach lib c hc run hrun fl args hargs w
    refine ⟨evs, h1, ?_⟩
    constructor
    · intro _ hcr
      subst hcr
      rcases hc with h | h | h <;> cases h
    · intro _
      exact h2

theorem gated_hook_reaches (lib : Lib σ) (c : Cmd)
    (hc : c = Cmd.runCmd ∨ c = Cmd.resumeCmd ∨ c = Cmd.rpcExecCmd ∨ c = Cmd.dockerCreateCmd)
    (run : Handler σ) (hrun : c.Run lib = some run) (fl : Flags) (given args : List String)
    (hargs : c.Args.accepts args = true) (w : World σ) :
    ∃ evs, (runIfRequiredGiven c given (run fl args) w).world.trace = w.trace ++ evs ∧
      (invokedOwn c evs ↔ reachesOperation lib c fl given w.st) := by
  cases hreq : c.requiredGiven given with
  | true =>
    obtain ⟨evs, h1, h2⟩ := hook_reaches lib c hc run hrun fl args hargs w
    refine ⟨evs, ?_, ?_⟩
    · simpa [runIfRequiredGiven, hreq] using h1
    · rw [h2]
      simp [reachesOperation, hreq]
  | false =>
    refine ⟨[], by simp [runIfRequiredGiven, hreq, Result.world], ?_⟩
    constructor
    · rintro ⟨ev, hev, _⟩
      cases hev
    · rintro ⟨h, _⟩
      rw [hreq] at h
      cases h

theorem invokedOwn_append_left (c : Cmd) (a b : List Event)
    (ha : ∀ ev ∈ a, ev.isCall c.ownOperation = false) :
    invokedOwn c (a ++ b) ↔ invokedOwn c b := by
  constructor
  · rintro ⟨ev, hev, hop⟩
    rcases List.mem_append.mp hev with h | h
    · rw [ha ev h] at hop
      cases hop
    · exact ⟨ev, h, hop⟩
  · rintro ⟨ev, hev, hop⟩
    exact ⟨ev, List.mem_append_right _ hev, hop⟩

theorem check_passed_pre (lib : Lib σ) (w w1 : World σ) (r : Option Error)
    (h : checkCompleteness lib w = .ok r w1) :
    ∃ pre, w1.trace = w.trace ++ pre ∧ (∀ ev ∈ pre, ev.isCall Call.isCheck = true) ∧
      w1.st = replay lib pre w.st := by
  obtain ⟨r2, w2, pre, h2, htr, hpre, _, hst⟩ := checkCompleteness_returns lib w
  rw [h] at h2
  simp only [Result.ok.injEq] at h2
  obtain ⟨_, rfl⟩ := h2
  exact ⟨pre, htr, hpre, hst⟩

end cache4

/-- C4: for run, resume, rpc exec and docker create, after a successful
completeness check: a cache error of kind `ErrNExist` only adds a warning and
the command goes on exactly as when the cache check returns no error, so the
library operation is called whenever nothing else stops the command (every
required flag is set and, for run, the configuration resolves; always for
resume and docker create).  A cache error of any other kind ends the command
with status 1 and the library operation is not called. -/
theorem cache_check_of_execution_commands {σ : Type} (lib : Lib σ) (c : Cmd)
    (hc : c = Cmd.runCmd ∨ c = Cmd.resumeCmd ∨ c = Cmd.rpcExecCmd ∨ c = Cmd.dockerCreateCmd)
    (fl : Flags) (given args : List String) (hargs : c.Args.accepts args = true)
    (w w1 : World σ) (hcheck : checkCompleteness lib w = .ok none w1) :
    let m := lib Call.CheckAndStartMemcache w1.st
    let new := newEvents w (invoke lib c fl given args w)
    ∃ run, c.Run lib = some run ∧
      (∀ e, m.1.err = some e → e.Err = ErrKind.ErrNExist →
        invoke lib c fl given args w
          = runIfRequiredGiven c given (run fl args)
              ⟨m.2, w1.trace ++ [Event.call Call.CheckAndStartMemcache, cacheWarning]⟩ ∧
        cacheWarning ∈ new ∧
        (invokedOwn c new ↔ reachesOperation lib c fl given m.2)) ∧
      (∀ e, m.1.err = some e → e.Err ≠ ErrKind.ErrNExist →
        invoke lib c fl given args w
          = .exit 1 ⟨m.2, w1.trace ++ [Event.call Call.CheckAndStartMemcache,
              Event.log Level.Fatal [] e.Error]⟩ ∧
        ¬ invokedOwn c new) ∧
      (m.1.err = none →
        invoke lib c fl given args w
          = runIfRequiredGiven c given (run fl args)
              ⟨m.2, w1.trace ++ [Event.call Call.CheckAndStartMemcache]⟩ ∧
        (invokedOwn c new ↔ reachesOperation lib c fl given m.2)) ∧
      (c = Cmd.resumeCmd ∨ c = Cmd.dockerCreateCmd → reachesOperation lib c fl given m.2) := by
  intro m new
  have hcc : c ∈ checkedCmds := by
    rcases hc with rfl | rfl | rfl | rfl <;> simp [checkedCmds]
  obtain ⟨run, hrun⟩ := run_isSome lib c hcc
  obtain ⟨pre, htr, hpre, _⟩ := check_passed_pre lib w w1 none hcheck
  have hpre2 : ∀ ev ∈ pre, ev.isCall c.ownOperation = false :=
    fun ev hev => check_call_is_no_operation c ev (hpre ev hev)
  have hinv := invoke_check_passed lib c hcc run hrun fl given args w w1 hcheck
  simp only [bind_apply, afterCheck_warn lib c hc] at hinv
  have hnew : ∀ (base : List Event) (w2 : World σ),
      invoke lib c fl given args w = runIfRequiredGiven c given (run fl args) w2 →
      w2.trace = w1.trace ++ base →
      w2.st = m.2 → (∀ ev ∈ base, ev.isCall c.ownOperation = false) →
      (∀ ev ∈ base, ev ∈ new) ∧
      (invokedOwn c new ↔ reachesOperation lib c fl given m.2) := by
    intro base w2 h1 h2 h3 hbase
    obtain ⟨evs, ht, hiff⟩ := gated_hook_reaches lib c hc run hrun fl given args hargs w2
    have hn : new = pre ++ (base ++ evs) := by
      apply newEvents_of_trace
      rw [h1, ht, h2, htr]
      simp
    rw [hn, invokedOwn_append_left c _ _ hpre2, invokedOwn_append_left c _ _ hbase, hiff, h3]
    exact ⟨fun ev hev => List.mem_append_right _ (List.mem_append_left _ hev), Iff.rfl⟩
  refine ⟨run, hrun, ?_, ?_, ?_, ?_⟩
  · intro e he hk
    have hm : (lib Call.CheckAndStartMemcache w1.st).1.err = some e := he
    simp only [hm, hk, ne_eq, not_true_eq_false, if_false] at hinv
    obtain ⟨hmem, hiff⟩ := hnew [Event.call Call.CheckAndStartMemcache, cacheWarning] _ hinv rfl rfl
      (by simp [Event.isCall, Cmd.ownOperation, Call.owner, cacheWarning])
    exact ⟨hinv, hmem _ (by simp), hiff⟩
  · intro e he hk
    have hm : (lib Call.CheckAndStartMemcache w1.st).1.err = some e := he
    simp only [hm, ne_eq, hk, not_false_eq_true, if_true] at hinv
    refine ⟨hinv, ?_⟩
    have hn : new = pre ++ [Event.call Call.CheckAndStartMemcache,
        Event.log Level.Fatal [] e.Error] := by
      apply newEvents_of_trace
      rw [hinv, htr]
      simp [Result.world]
    rw [hn, invokedOwn_append_left c _ _ hpre2]
    rintro ⟨ev, hev, hop⟩
    simp at hev
    rcases hev with rfl | rfl <;> simp [Event.isCall, Cmd.ownOperation, Call.owner] at hop
  · intro he
    have hm : (lib Call.CheckAndStartMemcache w1.st).1.err = none := he
    simp only [hm] at hinv
    exact ⟨hinv, (hnew [Event.call Call.CheckAndStartMemcache] _ hinv rfl rfl
      (by simp [Event.isCall, Cmd.ownOperation, Call.owner])).2⟩
  · rintro (rfl | rfl)
    · exact ⟨rfl, fun h => by cases h⟩
    · exact ⟨rfl, fun h => by cases h⟩

/-- Witness for C4: `resume c1` with the cache components missing logs the
warning and calls `Resume`. -/
theorem cache_check_of_execution_commands_witness :
    Cmd.resumeCmd.Args.accepts ["c1"] = true ∧
    checkCompleteness (demoLib cacheMissing true) World.start = .ok none World.checked ∧
    (demoLib cacheMissing true Call.CheckAndStartMemcache World.checked.st).1.err
      = some { Err := ErrKind.ErrNExist, msg := "memcached not found" } ∧
    cacheWarning ∈ newEvents World.start
      (invoke (demoLib cacheMissing true) Cmd.resumeCmd Flags.default [] ["c1"] World.start) ∧
    invokedOwn Cmd.resumeCmd (newEvents World.start
      (invoke (demoLib cacheMissing true) Cmd.resumeCmd Flags.default [] ["c1"]
        World.start)) := by
  obtain ⟨_, _, h1, _, _, h4⟩ :=
    cache_check_of_execution_commands (demoLib cacheMissing true) Cmd.resumeCmd
      (Or.inr (Or.inl rfl)) Flags.default [] ["c1"] rfl World.start World.checked rfl
  obtain ⟨_, h2, h3⟩ := h1 _ rfl rfl
  exact ⟨rfl, rfl, rfl, h2, h3.mpr (h4 (Or.inl rfl))⟩

section cache5
variable {σ : Type}

theorem afterCheck_strict (lib : Lib σ) (c : Cmd) (hc : c = Cmd.getCmd ∨ c = Cmd.setCmd)
    (w : World σ) :
    c.afterCheck lib w =
      match (lib Call.CheckAndStartMemcache w.st).1.err with
      | some e =>
        .exit 1 ⟨(lib Call.CheckAndStartMemcache w.st).2,
          w.trace ++ [Event.call Call.CheckAndStartMemcache, Event.log Level.Fatal [] e.Error]⟩
      | none =>
        .ok () ⟨(lib Call.CheckAndStartMemcache w.st).2,
          w.trace ++ [Event.call Call.CheckAndStartMemcache]⟩ := by
  rcases hc with rfl | rfl <;>
    simp only [Cmd.afterCheck, bind_apply, call_apply] <;>
    cases (lib Call.CheckAndStartMemcache w.st).1.err <;> simp

end cache5

/-- C5: for get and set, after a successful completeness check, every error of
`CheckAndStartMemcache`, of kind `ErrNExist` or any other, ends the command with
status 1 right after the fatal log entry; no warning is logged and `Get`,
respectively `Set`, is not called. -/
theorem cache_error_is_fatal_for_get_set {σ : Type} (lib : Lib σ) (c : Cmd)
    (hc : c = Cmd.getCmd ∨ c = Cmd.setCmd) (fl : Flags) (given args : List String)
    (w w1 : World σ) (hcheck : checkCompleteness lib w = .ok none w1)
    (e : Error) (he : (lib Call.CheckAndStartMemcache w1.st).1.err = some e) :
    invoke lib c fl given args w
      = .exit 1 ⟨(lib Call.CheckAndStartMemcache w1.st).2,
          w1.trace ++ [Event.call Call.CheckAndStartMemcache,
            Event.log Level.Fatal [] e.Error]⟩ ∧
    (invoke lib c fl given args w).status = 1 ∧
    ¬ invokedOwn c (newEvents w (invoke lib c fl given args w)) ∧
    cacheWarning ∉ newEvents w (invoke lib c fl given args w) := by
  have hcc : c ∈ checkedCmds := by
    rcases hc with rfl | rfl <;> simp [checkedCmds]
  obtain ⟨run, hrun⟩ := run_isSome lib c hcc
  obtain ⟨pre, htr, hpre, _⟩ := check_passed_pre lib w w1 none hcheck
  have hinv := invoke_check_passed lib c hcc run hrun fl given args w w1 hcheck
  simp only [bind_apply, afterCheck_strict lib c hc, he] at hinv
  have hn : newEvents w (invoke lib c fl given args w)
      = pre ++ [Event.call Call.CheckAndStartMemcache, Event.log Level.Fatal [] e.Error] := by
    apply newEvents_of_trace
    rw [hinv, htr]
    simp [Result.world]
  refine ⟨hinv, by rw [hinv]; rfl, ?_, ?_⟩
  · rw [hn, invokedOwn_append_left c _ _
      (fun ev hev => check_call_is_no_operation c ev (hpre ev hev))]
    rintro ⟨ev, hev, hop⟩
    simp at hev
    rcases hev with rfl | rfl <;> simp [Event.isCall, Cmd.ownOperation, Call.owner] at hop
  · rw [hn]
    intro hmem
    rcases List.mem_append.mp hmem with h | h
    · have := hpre _ h
      simp [cacheWarning, Event.isCall] at this
    · simp [cacheWarning] at h

/-- Witness for C5: `get` with the cache components missing. -/
theorem cache_error_is_fatal_for_get_set_witness :
    checkCompleteness (demoLib cacheMissing true) World.start = .ok none World.checked ∧
    (demoLib cacheMissing true Call.CheckAndStartMemcache World.checked.st).1.err
      = some { Err := ErrKind.ErrNExist, msg := "memcached not found" } ∧
    invoke (demoLib cacheMissing true) Cmd.getCmd flagsGet ["id", "name"] [] World.start
      = .exit 1 ⟨(demoLib cacheMissing true Call.CheckAndStartMemcache World.checked.st).2,
          World.checked.trace ++ [Event.call Call.CheckAndStartMemcache,
            Event.log Level.Fatal []
              (Error.Error { Err := ErrKind.ErrNExist, msg := "memcached not found" })]⟩ ∧
    (invoke (demoLib cacheMissing true) Cmd.getCmd flagsGet ["id", "name"] [] World.start).status = 1 ∧
    ¬ invokedOwn Cmd.getCmd
      (newEvents World.start
        (invoke (demoLib cacheMissing true) Cmd.getCmd flagsGet ["id", "name"] [] World.start)) ∧
    cacheWarning ∉ newEvents World.start
      (invoke (demoLib cacheMissing true) Cmd.getCmd flagsGet ["id", "name"] [] World.start) :=
  ⟨rfl, rfl,
   cache_error_is_fatal_for_get_set (demoLib cacheMissing true) Cmd.getCmd (Or.inl rfl)
     flagsGet ["id", "name"] [] World.start World.checked rfl _ rfl⟩


theorem dockerReset_error_returns {σ : Type} (lib : Lib σ) (fl : Flags) (name : String)
    (rest : List String) (w : World σ) (e : Error)
    (h : (lib (Call.DockerReset name) w.st).1.err = some e) :
    dockerResetCmd.Run lib fl (name :: rest) w
      = .ok () ⟨(lib (Call.DockerReset name) w.st).2,
          w.trace ++ [Event.call (Call.DockerReset name), Event.log Level.Error [] e.Error]⟩ := by
  simp [dockerResetCmd.Run, argAt, Prog.pure, h, LOGGER.Error]

/-- C6 fails on the code: when the library operation of docker reset, docker
search, docker list, docker push or uninstall returns an error, the hook logs
it with `LOGGER.Error` and returns, so the process ends with status 0; a
sibling such as docker delete ends with status 1 on the same failure. -/
theorem failed_operation_ends_with_status_zero :
    (invoke (demoLib (failOperation Cmd.dockerResetCmd) true) Cmd.dockerResetCmd
        Flags.default [] ["ubuntu"] World.start
      = .ok () ⟨[], World.checked.trace ++ [Event.call (Call.DockerReset "ubuntu"),
          Event.log Level.Error [] "operation failed"]⟩) ∧
    (invoke (demoLib (failOperation Cmd.dockerResetCmd) true) Cmd.dockerResetCmd
        Flags.default [] ["ubuntu"] World.start).status = 0 ∧
    (invoke (demoLib (failOperation Cmd.dockerSearchCmd) true) Cmd.dockerSearchCmd
        Flags.default [] ["ubuntu"] World.start).status = 0 ∧
    (invoke (demoLib (failOperation Cmd.dockerListCmd) true) Cmd.dockerListCmd
        Flags.default [] [] World.start).status = 0 ∧
    (invoke (demoLib (failOperation Cmd.dockerPushCmd) true) Cmd.dockerPushCmd
        flagsPush givenPush [] World.start).status = 0 ∧
    (invoke (demoLib (failOperation Cmd.uninstallCmd) true) Cmd.uninstallCmd
        Flags.default [] [] World.start).status = 0 ∧
    (invoke (demoLib (failOperation Cmd.dockerDeleteCmd) true) Cmd.dockerDeleteCmd
        Flags.default [] ["ubuntu"] World.start).status = 1 :=
  ⟨rfl, rfl, rfl, rfl, rfl, rfl, rfl⟩

section tree

theorem registered_closed : ∀ c ∈ registered, ∀ d ∈ c.commands, d ∈ registered := by
  decide

theorem findNext_mem (c d : Cmd) (next : String) (h : c.findNext next = some d) :
    d ∈ c.commands :=
  List.mem_of_find?_eq_some h

theorem find_stays_registered (words : List String) :
    ∀ c ∈ registered, (Cmd.Find c words).1 ∈ registered := by
  induction words with
  | nil => intro c hc; exact hc
  | cons next rest ih =>
    intro c hc
    simp only [Cmd.Find]
    cases h : c.findNext next with
    | none => exact hc
    | some d => exact ih d (registered_closed c hc d (findNext_mem c d next h))

end tree

/-- C7 fails on the code: `run` and `rpc` are declared with their flags and
subcommands but are not among the children given to `rootCmd.AddCommand`, so no
command line selects them or the rpc subcommands; `lpmx run` and `lpmx rpc exec`
stay at the root and run no hook.  The other ten top-level commands are
children of the root. -/
theorem run_and_rpc_not_registered :
    Cmd.runCmd ∉ Cmd.rootCmd.commands ∧ Cmd.rpcCmd ∉ Cmd.rootCmd.commands ∧
    (∀ words, (Cmd.Find Cmd.rootCmd words).1 ∉
      [Cmd.runCmd, Cmd.rpcCmd, Cmd.rpcExecCmd, Cmd.rpcQueryCmd, Cmd.rpcDeleteCmd]) ∧
    Cmd.Find Cmd.rootCmd ["run"] = (Cmd.rootCmd, ["run"]) ∧
    Cmd.Find Cmd.rootCmd ["rpc", "exec", "ls"] = (Cmd.rootCmd, ["rpc", "exec", "ls"]) ∧
    (∀ (σ : Type) (lib : Lib σ) (fl : Flags) (given : List String) (w : World σ),
      Execute lib fl given ["run"] w = .ok () w ∧
      Execute lib fl given ["rpc", "exec", "ls"] w = .ok () w) ∧
    (∀ c ∈ [Cmd.initCmd, Cmd.listCmd, Cmd.getCmd, Cmd.setCmd, Cmd.resumeCmd, Cmd.destroyCmd,
        Cmd.exposeCmd, Cmd.dockerCmd, Cmd.uninstallCmd, Cmd.versionCmd],
      c ∈ Cmd.rootCmd.commands ∧ Cmd.Find Cmd.rootCmd [c.Use] = (c, [])) := by
  refine ⟨by decide, by decide, ?_, by decide, by decide,
    fun _ _ _ _ _ => ⟨rfl, rfl⟩, by decide⟩
  intro words hmem
  have hreg := find_stays_registered words Cmd.rootCmd (by decide)
  revert hmem hreg
  generalize (Cmd.Find Cmd.rootCmd words).1 = c
  revert c
  decide

/-- C8 fails on the code: `dockerCmd.AddCommand` receives nine subcommands and
`dockerPushCmd`, declared with its flags, is not one of them, so no command
line selects it: `lpmx docker push` stays at `docker`, which has no `Run`.  The
other nine names select their subcommand. -/
theorem docker_push_not_registered :
    Cmd.dockerCmd.commands.length = 9 ∧
    Cmd.dockerPushCmd ∉ Cmd.dockerCmd.commands ∧
    (∀ words, (Cmd.Find Cmd.rootCmd words).1 ≠ Cmd.dockerPushCmd) ∧
    Cmd.Find Cmd.rootCmd ["docker", "push"] = (Cmd.dockerCmd, ["push"]) ∧
    (∀ (σ : Type) (lib : Lib σ) (fl : Flags) (given : List String) (w : World σ),
      Execute lib fl given ["docker", "push"] w = .ok () w) ∧
    (∀ c ∈ [Cmd.dockerDownloadCmd, Cmd.dockerAddCmd, Cmd.dockerPackageCmd,
        Cmd.dockerCommitCmd, Cmd.dockerCreateCmd, Cmd.dockerDeleteCmd, Cmd.dockerSearchCmd,
        Cmd.dockerListCmd, Cmd.dockerResetCmd],
      c ∈ Cmd.dockerCmd.commands ∧ Cmd.Find Cmd.rootCmd ["docker", c.Use] = (c, [])) := by
  refine ⟨by decide, by decide, ?_, by decide, fun _ _ _ _ _ => rfl, by decide⟩
  intro words heq
  have hreg := find_stays_registered words Cmd.rootCmd (by decide)
  rw [heq] at hreg
  revert hreg
  decide

/-- C9 fails on the code: the `Run` hook of docker push passes the `--pass`
value in the tag position, so with flags `u, p, n, t, i` the call made is
`DockerPush(u, p, n, p, i)` and `DockerPush(u, p, n, t, i)` is never called; the
`--tag` value is not used at all. -/
theorem docker_push_passes_pass_as_tag :
    dockerPushCmd.Run (demoLib noError true) flagsPush [] World.start
      = .ok () ⟨[], [Event.call (Call.DockerPush "u" "p" "n" "p" "i"),
          Event.log Level.Info [] "DONE"]⟩ ∧
    Event.call (Call.DockerPush "u" "p" "n" "t" "i") ∉
      (dockerPushCmd.Run (demoLib noError true) flagsPush [] World.start).world.trace ∧
    (∀ (σ : Type) (lib : Lib σ) (fl : Flags) (args : List String) (w : World σ),
      (newEvents w (dockerPushCmd.Run lib fl args w)).head?
        = some (Event.call (Call.DockerPush fl.DockerPushUser fl.DockerPushPass
            fl.DockerPushName fl.DockerPushPass fl.DockerPushId))) := by
  refine ⟨rfl, by decide, ?_⟩
  intro σ lib fl args w
  simp only [dockerPushCmd.Run, bind_apply, call_apply]
  cases (lib (Call.DockerPush fl.DockerPushUser fl.DockerPushPass fl.DockerPushName
    fl.DockerPushPass fl.DockerPushId) w.st).1.err <;>
    simp [newEvents, Result.world, LOGGER.Error, LOGGER.Info]

/-- Witness for C2: the check stops at a failing `GetCurrDir`. -/
theorem checkCompleteness_first_failure_witness :
    (demoLib failGetCurrDir true Call.GetCurrDir World.start.st).1.err
      = some { Err := ErrKind.other 1, msg := "no install directory" } ∧
    checkCompleteness (demoLib failGetCurrDir true) World.start
      = .ok (some { Err := ErrKind.other 1, msg := "no install directory" })
          ⟨(demoLib failGetCurrDir true Call.GetCurrDir World.start.st).2,
           World.start.trace ++ [Event.call Call.GetCurrDir]⟩ :=
  ⟨rfl, (checkCompleteness_first_failure (demoLib failGetCurrDir true) World.start).2.2.1 _ rfl⟩

/-- Witness for C10: `run --source proj` without `setting.yml`. -/
theorem run_config_resolution_witness :
    flagsRunNoConfig.RunConfig = "" ∧
    (demoLib noError false (Call.FileExist "/cwd/proj/setting.yml") []).1.flag = false ∧
    (runCmd.Run (demoLib noError false) flagsRunNoConfig [] World.start).status = 1 ∧
    newEvents World.start (runCmd.Run (demoLib noError false) flagsRunNoConfig [] World.start)
      = [Event.call (Call.filepathAbs "proj"),
         Event.call (Call.FileExist "/cwd/proj/setting.yml"),
         Event.log Level.Fatal [] "can\x27t locate the setting.yml in source folder"] :=
  ⟨rfl, rfl,
   (run_config_resolution (demoLib noError false) flagsRunNoConfig [] World.start).2.2.2.1
     rfl rfl⟩


section setcmd
variable {σ : Type}

theorem setCmd_Run_accepts (lib : Lib σ) (fl : Flags) (args : List String) (w : World σ)
    (h : strings.Contains fl.SetVal ":" = true) :
    (setCmd.Run lib fl args w).world.trace
      = w.trace ++ (Event.call (Call.Set fl.SetId fl.SetType fl.SetProg fl.SetVal) ::
          setTail fl.SetId
            (lib (Call.Set fl.SetId fl.SetType fl.SetProg fl.SetVal) w.st).1.err) := by
  simp only [setCmd.Run, h, bind_apply, call_apply]
  cases hm : (lib (Call.Set fl.SetId fl.SetType fl.SetProg fl.SetVal) w.st).1.err <;>
    simp [hm, Result.world, setTail, LOGGER.WithFields.Info]

theorem setCmd_Run_rejects (lib : Lib σ) (fl : Flags) (args : List String) (w : World σ)
    (h : strings.Contains fl.SetVal ":" = false) :
    ∃ msg, setCmd.Run lib fl args w
      = .exit 1 ⟨w.st, w.trace ++ [Event.log Level.Fatal [("value", fl.SetVal)] msg]⟩ := by
  simp only [setCmd.Run, h]
  exact ⟨_, rfl⟩

theorem setTail_no_call (id : String) (err : Option Error) (c : Call) :
    Event.call c ∉ setTail id err := by
  cases err <;> simp [setTail]

theorem check_call_is_not_set (ev : Event) (h : ev.isCall Call.isCheck = true)
    (id type prog value : String) : ev ≠ Event.call (Call.Set id type prog value) := by
  intro heq
  subst heq
  simp [Event.isCall, Call.isCheck] at h

end setcmd


theorem set_run_after_checks {σ : Type} (lib : Lib σ) (fl : Flags)
    (args : List String) (w w1 : World σ) (pre : List Event)
    (htr : w1.trace = w.trace ++ pre) (hpre : ∀ ev ∈ pre, ev.isCall Call.isCheck = true)
    (res : Result σ Unit)
    (hinv : res = setCmd.Run lib fl args
      ⟨(lib Call.CheckAndStartMemcache w1.st).2,
        w1.trace ++ [Event.call Call.CheckAndStartMemcache]⟩) :
    let new := newEvents w res
    (Event.call (Call.Set fl.SetId fl.SetType fl.SetProg fl.SetVal) ∈ new
      ↔ ':' ∈ fl.SetVal.data) ∧
    (invokedOwn Cmd.setCmd new ↔ ':' ∈ fl.SetVal.data) ∧
    (∀ id type prog value, Event.call (Call.Set id type prog value) ∈ new →
      id = fl.SetId ∧ type = fl.SetType ∧ prog = fl.SetProg ∧ value = fl.SetVal) ∧
    (':' ∉ fl.SetVal.data → res.status = 1) := by
  intro new
  have hpre2 : ∀ ev ∈ pre, ev.isCall (Cmd.ownOperation Cmd.setCmd) = false :=
    fun ev hev => check_call_is_no_operation Cmd.setCmd ev (hpre ev hev)
  cases hc : strings.Contains fl.SetVal ":" with
  | true =>
    have hcolon : ':' ∈ fl.SetVal.data := (contains_colon _).mp hc
    have hn : new = pre ++ (Event.call Call.CheckAndStartMemcache ::
        Event.call (Call.Set fl.SetId fl.SetType fl.SetProg fl.SetVal) ::
        setTail fl.SetId (lib (Call.Set fl.SetId fl.SetType fl.SetProg fl.SetVal)
          (lib Call.CheckAndStartMemcache w1.st).2).1.err) := by
      apply newEvents_of_trace
      rw [hinv, setCmd_Run_accepts lib fl args _ hc, htr]
      simp
    have hin : Event.call (Call.Set fl.SetId fl.SetType fl.SetProg fl.SetVal) ∈ new := by
      rw [hn]
      exact List.mem_append_right _ (List.mem_cons_of_mem _ (List.mem_cons_self _ _))
    refine ⟨⟨fun _ => hcolon, fun _ => hin⟩, ⟨fun _ => hcolon, fun _ => ⟨_, hin, rfl⟩⟩, ?_,
      fun h => absurd hcolon h⟩
    intro id type prog value hm
    rw [hn] at hm
    rcases List.mem_append.mp hm with h | h
    · exact absurd rfl (check_call_is_not_set _ (hpre _ h) id type prog value)
    · rcases List.mem_cons.mp h with h | h
      · cases h
      · rcases List.mem_cons.mp h with h | h
        · cases h
          exact ⟨rfl, rfl, rfl, rfl⟩
        · exact absurd h (setTail_no_call _ _ _)
  | false =>
    have hcolon : ':' ∉ fl.SetVal.data := fun h => by
      rw [(contains_colon _).mpr h] at hc
      cases hc
    obtain ⟨msg, hrej⟩ := setCmd_Run_rejects lib fl args
      ⟨(lib Call.CheckAndStartMemcache w1.st).2,
        w1.trace ++ [Event.call Call.CheckAndStartMemcache]⟩ hc
    rw [hrej] at hinv
    have hn : new = pre ++ [Event.call Call.CheckAndStartMemcache,
        Event.log Level.Fatal [("value", fl.SetVal)] msg] := by
      apply newEvents_of_trace
      rw [hinv, htr]
      simp [Result.world]
    have hnone : ∀ id type prog value, Event.call (Call.Set id type prog value) ∉ new := by
      intro id type prog value hm
      rw [hn] at hm
      rcases List.mem_append.mp hm with h | h
      · exact absurd rfl (check_call_is_not_set _ (hpre _ h) id type prog value)
      · simp at h
    refine ⟨⟨fun h => absurd h (hnone _ _ _ _), fun h => absurd h hcolon⟩,
      ⟨?_, fun h => absurd h hcolon⟩, fun id type prog value h => absurd h (hnone _ _ _ _),
      fun _ => by rw [hinv]; rfl⟩
    rintro ⟨ev, hev, hop⟩
    rw [hn] at hev
    rcases List.mem_append.mp hev with h | h
    · rw [hpre2 ev h] at hop
      cases hop
    · simp at h
      rcases h with rfl | rfl <;> simp [Event.isCall, Cmd.ownOperation, Call.owner] at hop


/-- C11: given that the pre-run checks of `set` passed and the four required
flags are set, `Set` is called, with the four flag values unchanged, exactly
when the `--value` string contains a `:`; no other `Set` call is made, nothing
else about the value or the `--type` value is tested, and without a `:` the
command ends with status 1.  When a required flag is omitted, cobra stops
before `Run`: `Set` is not called and the process ends with status 0. -/
theorem set_validation_is_contains_colon {σ : Type} (lib : Lib σ) (fl : Flags)
    (given args : List String) (w w1 : World σ)
    (hcheck : checkCompleteness lib w = .ok none w1)
    (hmem : (lib Call.CheckAndStartMemcache w1.st).1.err = none) :
    let new := newEvents w (invoke lib Cmd.setCmd fl given args w)
    (Cmd.setCmd.requiredGiven given = true →
      (Event.call (Call.Set fl.SetId fl.SetType fl.SetProg fl.SetVal) ∈ new
        ↔ ':' ∈ fl.SetVal.data) ∧
      (invokedOwn Cmd.setCmd new ↔ ':' ∈ fl.SetVal.data) ∧
      (':' ∉ fl.SetVal.data → (invoke lib Cmd.setCmd fl given args w).status = 1)) ∧
    (∀ id type prog value, Event.call (Call.Set id type prog value) ∈ new →
      id = fl.SetId ∧ type = fl.SetType ∧ prog = fl.SetProg ∧ value = fl.SetVal ∧
      ':' ∈ fl.SetVal.data ∧ Cmd.setCmd.requiredGiven given = true) ∧
    (Cmd.setCmd.requiredGiven given = false →
      invoke lib Cmd.setCmd fl given args w
        = .ok () ⟨(lib Call.CheckAndStartMemcache w1.st).2,
            w1.trace ++ [Event.call Call.CheckAndStartMemcache]⟩) := by
  intro new
  have hset : Cmd.setCmd ∈ checkedCmds := by simp [checkedCmds]
  obtain ⟨pre, htr, hpre, _⟩ := check_passed_pre lib w w1 none hcheck
  have hinv := invoke_check_passed lib Cmd.setCmd hset (setCmd.Run lib) rfl fl given args
    w w1 hcheck
  simp only [bind_apply, afterCheck_strict lib Cmd.setCmd (Or.inr rfl), hmem] at hinv
  cases hreq : Cmd.setCmd.requiredGiven given with
  | true =>
    simp only [runIfRequiredGiven, hreq, if_true] at hinv
    obtain ⟨h1, h2, h3, h4⟩ :=
      set_run_after_checks lib fl args w w1 pre htr hpre _ hinv
    refine ⟨fun _ => ⟨h1, h2, h4⟩, ?_, fun h => by cases h⟩
    intro id type prog value hm
    obtain ⟨e1, e2, e3, e4⟩ := h3 id type prog value hm
    subst e1 e2 e3 e4
    exact ⟨rfl, rfl, rfl, rfl, h1.mp hm, rfl⟩
  | false =>
    simp only [runIfRequiredGiven, hreq, Bool.false_eq_true, if_false, pure_apply] at hinv
    have hn : new = pre ++ [Event.call Call.CheckAndStartMemcache] := by
      apply newEvents_of_trace
      rw [hinv, htr]
      simp [Result.world]
    refine ⟨(fun h => nomatch h), ?_, fun _ => hinv⟩
    intro id type prog value hm
    rw [hn] at hm
    rcases List.mem_append.mp hm with h | h
    · exact absurd rfl (check_call_is_not_set _ (hpre _ h) id type prog value)
    · simp at h

/-- Witness for C11: with the four required flags set, the values `a:b;cd`
(with a type that is neither `add_map` nor `remove_map`) and `:` alone are both
forwarded to `Set`. -/
theorem set_validation_is_contains_colon_witness :
    checkCompleteness (demoLib noError true) World.start = .ok none World.checked ∧
    (demoLib noError true Call.CheckAndStartMemcache World.checked.st).1.err = none ∧
    Cmd.setCmd.requiredGiven givenSet = true ∧
    Event.call (Call.Set "c1" "bogus_type" "foo" "a:b;cd") ∈
      newEvents World.start
        (invoke (demoLib noError true) Cmd.setCmd flagsSetPartial givenSet [] World.start) ∧
    Event.call (Call.Set "c1" "add_map" "foo" ":") ∈
      newEvents World.start
        (invoke (demoLib noError true) Cmd.setCmd flagsSetColonOnly givenSet [] World.start) :=
  ⟨rfl, rfl, rfl,
   ((set_validation_is_contains_colon (demoLib noError true) flagsSetPartial givenSet []
      World.start World.checked rfl rfl).1 rfl).1.mpr (by decide),
   ((set_validation_is_contains_colon (demoLib noError true) flagsSetColonOnly givenSet []
      World.start World.checked rfl rfl).1 rfl).1.mpr (by decide)⟩


section rpckill
variable {σ : Type}

theorem rpcDelete_Run_parsed (lib : Lib σ) (fl : Flags) (args : List String) (w : World σ)
    (n : Int) (h : strconv.Atoi fl.RDeletePid = .ok n) :
    (rpcDeleteCmd.Run lib fl args w).world.trace
      = w.trace ++ (Event.call (Call.RPCDelete fl.RDeleteIp fl.RDeletePort n) ::
          doneTail (lib (Call.RPCDelete fl.RDeleteIp fl.RDeletePort n) w.st).1.err) := by
  simp only [rpcDeleteCmd.Run, h, bind_apply, call_apply]
  cases hm : (lib (Call.RPCDelete fl.RDeleteIp fl.RDeletePort n) w.st).1.err <;>
    simp [hm, Result.world, doneTail, LOGGER.Info]

theorem rpcDelete_Run_unparsed (lib : Lib σ) (fl : Flags) (args : List String) (w : World σ)
    (e : NumError) (h : strconv.Atoi fl.RDeletePid = .error e) :
    rpcDeleteCmd.Run lib fl args w
      = .exit 1 ⟨w.st, w.trace ++ [Event.logNumError Level.Fatal e.Func e.Num e.Err]⟩ := by
  simp only [rpcDeleteCmd.Run, h]
  rfl

theorem doneTail_no_call (err : Option Error) (c : Call) : Event.call c ∉ doneTail err := by
  cases err <;> simp [doneTail]

theorem check_call_is_not_delete (ev : Event) (h : ev.isCall Call.isCheck = true)
    (ip port : String) (n : Int) : ev ≠ Event.call (Call.RPCDelete ip port n) := by
  intro heq
  subst heq
  simp [Event.isCall, Call.isCheck] at h

theorem atoi_ok (s : String) (n : Int) :
    strconv.Atoi s = .ok n ↔ strconv.parseInt10 s.data = .ok n := by
  unfold strconv.Atoi
  cases strconv.parseInt10 s.data <;> simp

theorem atoi_error (s : String) (e : NumError) (h : strconv.Atoi s = .error e) :
    e.Func = "Atoi" ∧ e.Num = s ∧ strconv.parseInt10 s.data = .error e.Err := by
  unfold strconv.Atoi at h
  cases hp : strconv.parseInt10 s.data with
  | ok n => simp [hp] at h
  | error k =>
    simp only [hp, Except.error.injEq] at h
    subst h
    exact ⟨rfl, rfl, rfl⟩

theorem parseInt10_in_range (l : List Char) (n : Int) (h : strconv.parseInt10 l = .ok n) :
    -(2 : Int) ^ 63 ≤ n ∧ n < (2 : Int) ^ 63 := by
  cases l with
  | nil => simp [strconv.parseInt10] at h
  | cons c cs =>
    simp only [strconv.parseInt10] at h
    generalize (if (c == '-' || c == '+') = true then cs else c :: cs) = body at h
    by_cases hemp : body.isEmpty = true
    · simp [hemp] at h
    · simp only [hemp, Bool.false_eq_true, if_false] at h
      cases hu : strconv.parseUintLoop body 0 with
      | error e => simp [hu] at h
      | ok un =>
        simp only [hu] at h
        by_cases hneg : (c == '-') = true
        · simp only [hneg, Bool.not_true, Bool.false_and, Bool.false_eq_true, if_false,
            Bool.true_and, decide_eq_true_eq, if_true] at h
          split at h
          · cases h
          · rename_i hle
            simp only [Except.ok.injEq] at h
            subst h
            constructor <;> omega
        · simp only [Bool.not_eq_true] at hneg
          simp only [hneg, Bool.not_false, Bool.true_and, decide_eq_true_eq, Bool.false_and,
            Bool.false_eq_true, if_false] at h
          split at h
          · cases h
          · rename_i hlt
            simp only [Except.ok.injEq] at h
            subst h
            constructor <;> omega

theorem atoi_in_range (s : String) (n : Int) (h : strconv.Atoi s = .ok n) :
    -(2 : Int) ^ 63 ≤ n ∧ n < (2 : Int) ^ 63 :=
  parseInt10_in_range s.data n ((atoi_ok s n).mp h)

end rpckill

theorem atoi_examples :
    strconv.Atoi "-5" = .ok (-5) ∧ strconv.Atoi "0" = .ok 0 ∧ strconv.Atoi "+7" = .ok 7 ∧
    strconv.Atoi "-9223372036854775808" = .ok (-9223372036854775808) ∧
    strconv.Atoi "9223372036854775807" = .ok 9223372036854775807 ∧
    strconv.Atoi "" = .error { Func := "Atoi", Num := "", Err := NumErr.ErrSyntax } ∧
    strconv.Atoi "-" = .error { Func := "Atoi", Num := "-", Err := NumErr.ErrSyntax } ∧
    strconv.Atoi "abc" = .error { Func := "Atoi", Num := "abc", Err := NumErr.ErrSyntax } ∧
    strconv.Atoi "12x" = .error { Func := "Atoi", Num := "12x", Err := NumErr.ErrSyntax } ∧
    strconv.Atoi "1_000" = .error { Func := "Atoi", Num := "1_000", Err := NumErr.ErrSyntax } ∧
    strconv.Atoi " 42" = .error { Func := "Atoi", Num := " 42", Err := NumErr.ErrSyntax } ∧
    strconv.Atoi "9223372036854775808"
      = .error { Func := "Atoi", Num := "9223372036854775808", Err := NumErr.ErrRange } ∧
    strconv.Atoi "-9223372036854775809"
      = .error { Func := "Atoi", Num := "-9223372036854775809", Err := NumErr.ErrRange } :=
  ⟨rfl, rfl, rfl, rfl, rfl, rfl, rfl, rfl, rfl, rfl, rfl, rfl, rfl⟩

theorem kill_run_after_check {σ : Type} (lib : Lib σ) (fl : Flags) (args : List String)
    (w w1 : World σ) (pre : List Event)
    (htr : w1.trace = w.trace ++ pre) (hpre : ∀ ev ∈ pre, ev.isCall Call.isCheck = true)
    (res : Result σ Unit) (hinv : res = rpcDeleteCmd.Run lib fl args w1) :
    let new := newEvents w res
    (∀ n, strconv.Atoi fl.RDeletePid = .ok n →
      Event.call (Call.RPCDelete fl.RDeleteIp fl.RDeletePort n) ∈ new ∧
      -(2 : Int) ^ 63 ≤ n ∧ n < (2 : Int) ^ 63) ∧
    (∀ ip port n, Event.call (Call.RPCDelete ip port n) ∈ new →
      ip = fl.RDeleteIp ∧ port = fl.RDeletePort ∧ strconv.Atoi fl.RDeletePid = .ok n) ∧
    (invokedOwn Cmd.rpcDeleteCmd new ↔ ∃ n, strconv.Atoi fl.RDeletePid = .ok n) ∧
    (∀ e, strconv.Atoi fl.RDeletePid = .error e →
      res = .exit 1 ⟨w1.st, w1.trace ++
          [Event.logNumError Level.Fatal "Atoi" fl.RDeletePid e.Err]⟩ ∧
      res.status = 1) := by
  intro new
  have hpre2 : ∀ ev ∈ pre, ev.isCall (Cmd.ownOperation Cmd.rpcDeleteCmd) = false :=
    fun ev hev => check_call_is_no_operation Cmd.rpcDeleteCmd ev (hpre ev hev)
  cases hp : strconv.Atoi fl.RDeletePid with
  | ok n =>
    have hn : new = pre ++ (Event.call (Call.RPCDelete fl.RDeleteIp fl.RDeletePort n) ::
        doneTail (lib (Call.RPCDelete fl.RDeleteIp fl.RDeletePort n) w1.st).1.err) := by
      apply newEvents_of_trace
      rw [hinv, rpcDelete_Run_parsed lib fl args _ n hp, htr]
      simp
    have hin : Event.call (Call.RPCDelete fl.RDeleteIp fl.RDeletePort n) ∈ new := by
      rw [hn]
      exact List.mem_append_right _ (List.mem_cons_self _ _)
    refine ⟨?_, ?_, ⟨fun _ => ⟨n, rfl⟩, fun _ => ⟨_, hin, rfl⟩⟩, fun e he => by cases he⟩
    · intro k hk
      cases hk
      exact ⟨hin, atoi_in_range _ _ hp⟩
    · intro ip port k hm
      rw [hn] at hm
      rcases List.mem_append.mp hm with h | h
      · exact absurd rfl (check_call_is_not_delete _ (hpre _ h) ip port k)
      · rcases List.mem_cons.mp h with h | h
        · cases h
          exact ⟨rfl, rfl, rfl⟩
        · exact absurd h (doneTail_no_call _ _)
  | error e =>
    obtain ⟨hf, hnum, _⟩ := atoi_error _ _ hp
    have hrun := rpcDelete_Run_unparsed lib fl args w1 e hp
    rw [hf, hnum] at hrun
    rw [hrun] at hinv
    have hn : new = pre ++ [Event.logNumError Level.Fatal "Atoi" fl.RDeletePid e.Err] := by
      apply newEvents_of_trace
      rw [hinv, htr]
      simp [Result.world]
    have hnone : ∀ ip port k, Event.call (Call.RPCDelete ip port k) ∉ new := by
      intro ip port k hm
      rw [hn] at hm
      rcases List.mem_append.mp hm with h | h
      · exact absurd rfl (check_call_is_not_delete _ (hpre _ h) ip port k)
      · simp at h
    refine ⟨(fun k hk => nomatch hk), fun ip port k h => absurd h (hnone _ _ _), ⟨?_, ?_⟩, ?_⟩
    · rintro ⟨ev, hev, hop⟩
      rw [hn] at hev
      rcases List.mem_append.mp hev with h | h
      · rw [hpre2 ev h] at hop
        cases hop
      · simp at h
        subst h
        simp [Event.isCall] at hop
    · rintro ⟨k, hk⟩
      cases hk
    · intro e2 he2
      cases he2
      exact ⟨hinv, by rw [hinv]; rfl⟩

/-- C12: for rpc kill, given that the completeness check passed and the three
required flags are set, `RPCDelete` is called exactly when `strconv.Atoi`
parses the `--pid` string, and then with the `--ip` and `--port` values and the
parsed integer (any value of the `int` range, negative and zero included); when
the string does not parse, the command ends with status 1 right after the
fatal log entry of the `Atoi` error and `RPCDelete` is not called.  When a
required flag is omitted, cobra stops before `Run`: `RPCDelete` is not called
and the process ends with status 0. -/
theorem rpc_kill_parses_pid {σ : Type} (lib : Lib σ) (fl : Flags) (given args : List String)
    (w w1 : World σ) (hcheck : checkCompleteness lib w = .ok none w1) :
    let new := newEvents w (invoke lib Cmd.rpcDeleteCmd fl given args w)
    (Cmd.rpcDeleteCmd.requiredGiven given = true →
      (∀ n, strconv.Atoi fl.RDeletePid = .ok n →
        Event.call (Call.RPCDelete fl.RDeleteIp fl.RDeletePort n) ∈ new ∧
        -(2 : Int) ^ 63 ≤ n ∧ n < (2 : Int) ^ 63) ∧
      (invokedOwn Cmd.rpcDeleteCmd new ↔ ∃ n, strconv.Atoi fl.RDeletePid = .ok n) ∧
      (∀ e, strconv.Atoi fl.RDeletePid = .error e →
        invoke lib Cmd.rpcDeleteCmd fl given args w
          = .exit 1 ⟨w1.st, w1.trace ++
              [Event.logNumError Level.Fatal "Atoi" fl.RDeletePid e.Err]⟩ ∧
        (invoke lib Cmd.rpcDeleteCmd fl given args w).status = 1)) ∧
    (∀ ip port n, Event.call (Call.RPCDelete ip port n) ∈ new →
      ip = fl.RDeleteIp ∧ port = fl.RDeletePort ∧ strconv.Atoi fl.RDeletePid = .ok n ∧
      Cmd.rpcDeleteCmd.requiredGiven given = true) ∧
    (Cmd.rpcDeleteCmd.requiredGiven given = false →
      invoke lib Cmd.rpcDeleteCmd fl given args w = .ok () w1) := by
  intro new
  have hkill : Cmd.rpcDeleteCmd ∈ checkedCmds := by simp [checkedCmds]
  obtain ⟨pre, htr, hpre, _⟩ := check_passed_pre lib w w1 none hcheck
  have hinv := invoke_check_passed lib Cmd.rpcDeleteCmd hkill (rpcDeleteCmd.Run lib) rfl
    fl given args w w1 hcheck
  simp only [bind_apply, Cmd.afterCheck, pure_apply] at hinv
  cases hreq : Cmd.rpcDeleteCmd.requiredGiven given with
  | true =>
    simp only [runIfRequiredGiven, hreq, if_true] at hinv
    obtain ⟨h1, h2, h3, h4⟩ := kill_run_after_check lib fl args w w1 pre htr hpre _ hinv
    refine ⟨fun _ => ⟨h1, h3, h4⟩, ?_, fun h => by cases h⟩
    intro ip port n hm
    obtain ⟨e1, e2, e3⟩ := h2 ip port n hm
    exact ⟨e1, e2, e3, rfl⟩
  | false =>
    simp only [runIfRequiredGiven, hreq, Bool.false_eq_true, if_false, pure_apply] at hinv
    have hn : new = pre := by
      apply newEvents_of_trace
      rw [hinv]
      exact htr
    refine ⟨(fun h => nomatch h), ?_, fun _ => hinv⟩
    intro ip port n hm
    rw [hn] at hm
    exact absurd rfl (check_call_is_not_delete _ (hpre _ hm) ip port n)

/-- Witness for C12: with the three required flags set, `rpc kill --pid -5`
calls `RPCDelete` with `-5`, and `--pid 12x` ends with status 1. -/
theorem rpc_kill_parses_pid_witness :
    checkCompleteness (demoLib noError true) World.start = .ok none World.checked ∧
    Cmd.rpcDeleteCmd.requiredGiven givenKill = true ∧
    strconv.Atoi flagsKillNegative.RDeletePid = .ok (-5) ∧
    Event.call (Call.RPCDelete "127.0.0.1" "8080" (-5)) ∈
      newEvents World.start
        (invoke (demoLib noError true) Cmd.rpcDeleteCmd flagsKillNegative givenKill []
          World.start) ∧
    strconv.Atoi flagsKillBadPid.RDeletePid
      = .error { Func := "Atoi", Num := "12x", Err := NumErr.ErrSyntax } ∧
    (invoke (demoLib noError true) Cmd.rpcDeleteCmd flagsKillBadPid givenKill []
      World.start).status = 1 :=
  ⟨rfl, rfl, rfl,
   (((rpc_kill_parses_pid (demoLib noError true) flagsKillNegative givenKill [] World.start
      World.checked rfl).1 rfl).1 (-5) rfl).1,
   rfl,
   (((rpc_kill_parses_pid (demoLib noError true) flagsKillBadPid givenKill [] World.start
      World.checked rfl).1 rfl).2.2 _ rfl).2⟩


theorem execute_set_with_flag_omitted :
    Execute (demoLib noError true) flagsSetNoColon ["id", "type", "name"] ["set"] World.start
      = .ok () ⟨[], World.checked.trace ++ [Event.call Call.CheckAndStartMemcache]⟩ ∧
    (Execute (demoLib noError true) flagsSetNoColon ["id", "type", "name"] ["set"]
      World.start).status = 0 ∧
    (Execute (demoLib noError true) flagsSetNoColon givenSet ["set"] World.start).status = 1 ∧
    Execute (demoLib noError true) flagsSetColonOnly ["value"] ["set"] World.start
      = .ok () ⟨[], World.checked.trace ++ [Event.call Call.CheckAndStartMemcache]⟩ :=
  ⟨rfl, rfl, rfl, rfl⟩

end Lpmx
